import Mathlib

set_option maxHeartbeats 1000000

/-
Verification of the editor-tree layer (`GXElementEditor` in
src/infinity/editor/elementeditor.js) of the gravit vector editor.

Scene elements and editor nodes are identified by natural numbers.  The
scene tree (an external collaborator of this layer) is modelled by parent
pointers and ordered child lists; the mutable editor structures
(`element.__editor__`, `editor._editors`, `editor._parentEditor`, ...) are
modelled as an explicit state record that the operations thread through.
-/

/-- Pointwise update of a function `Nat → α` at one key. -/
def upd {α : Type} (f : Nat → α) (k : Nat) (v : α) : Nat → α :=
  fun x => if x = k then v else f x

@[simp] theorem upd_same {α : Type} (f : Nat → α) (k : Nat) (v : α) : upd f k v k = v := by
  simp [upd]

@[simp] theorem upd_ne {α : Type} (f : Nat → α) (k x : Nat) (v : α) (h : x ≠ k) :
    upd f k v x = f x := by
  simp [upd, h]

/-- The scene tree as consumed by the editor layer: parent pointers
(`element.getParent()`), ordered child lists in document order (which
determine `element.getNext()`), the attached elements
(`element.isAttached()`), and which elements have a registered editor
class (`GXElementEditor._Editors[GObject.getTypeId(element)]` being set;
since the class is determined by the element's type id we record the
lookup result per element). -/
structure Scene where
  parent : Nat → Option Nat
  childrenOf : Nat → List Nat
  attached : List Nat
  registered : Nat → Bool

/-- The mutable editor-layer state.  `nextId` allocates fresh editor ids
(each `new editorClass(element)` yields a distinct instance); `slot e`
is `element.__editor__`; `elemOf ed` is `editor._element`; `eds ed` is
`editor._editors` where `none` models the JS `null` prototype default and
`some l` an array; `parentEd ed` is `editor._parentEditor`. -/
structure EditorState where
  nextId : Nat
  slot : Nat → Option Nat
  elemOf : Nat → Nat
  eds : Nat → Option (List Nat)
  parentEd : Nat → Option Nat

/-- `GXElementEditor.createEditor` in the registered case:
`new editorClass(element)` sets `_element`; the prototype defaults give
`_editors = null` and `_parentEditor = null`.  The new instance is
identified by the fresh id `s.nextId`. -/
def createFresh (s : EditorState) (e : Nat) : EditorState :=
  { s with
    nextId := s.nextId + 1
    elemOf := upd s.elemOf s.nextId e
    eds := upd s.eds s.nextId none
    parentEd := upd s.parentEd s.nextId none }

/-- Second half of `GXElementEditor.prototype.insertEditor`: the parent
check, the `if (!this._editors) this._editors = []` initialisation, and
the push/splice at the already-computed index. -/
def insertAt (s : EditorState) (p c : Nat) (index : Nat) : Except String EditorState :=
  if s.parentEd c ≠ none then .error "Editor already appended."
  else
    let l := (s.eds p).getD []
    let l2 := if index ≥ l.length then l ++ [c] else l.take index ++ c :: l.drop index
    .ok { s with eds := upd s.eds p (some l2), parentEd := upd s.parentEd c (some p) }

/-- `GXElementEditor.prototype.insertEditor` on parent editor `p`,
inserted editor `c` and reference editor `ref`.  With a non-null
reference the index is `this._editors.indexOf(referenceEditor)`; if
`_editors` is still `null` that dereference is a JS `TypeError`, and an
index `< 0` raises `Unknown reference editor.`. -/
def insertEditor (s : EditorState) (p c : Nat) (ref : Option Nat) : Except String EditorState :=
  match ref with
  | some r =>
    match s.eds p with
    | none => .error "TypeError: cannot read indexOf of null"
    | some l =>
      if r ∈ l then insertAt s p c (l.indexOf r)
      else .error "Unknown reference editor."
  | none => insertAt s p c ((s.eds p).getD []).length

/-- `GXElementEditor.prototype.removeEditor`: `indexOf` on a `null`
`_editors` is a JS `TypeError`; an index `< 0` raises `Unknown editor.`;
otherwise `splice(index, 1)` removes the first occurrence and the
`_parentEditor` back-reference is cleared. -/
def removeEditor (s : EditorState) (p c : Nat) : Except String EditorState :=
  match s.eds p with
  | none => .error "TypeError: cannot read indexOf of null"
  | some l =>
    if c ∈ l then
      .ok { s with eds := upd s.eds p (some (l.erase c)), parentEd := upd s.parentEd c none }
    else .error "Unknown editor."

/-- The siblings following `e` inside an ordered child list: the chain
`element.getNext()`, `getNext().getNext()`, ... as a list. -/
def sibsAfter (e : Nat) : List Nat → List Nat
  | [] => []
  | x :: xs => if x = e then xs else sibsAfter e xs

/-- The sibling scan of `GXElementEditor.openEditor`: walk the next
siblings and return the first attached editor found
(`GXElementEditor.getEditor(nextNode)`), if any. -/
def firstEditor (s : EditorState) : List Nat → Option Nat
  | [] => none
  | x :: xs =>
    match s.slot x with
    | some ed => some ed
    | none => firstEditor s xs

/-- The reference-editor computation of `GXElementEditor.openEditor`:
the editor of the first next sibling of `elem` that already has one. -/
def findRefEditor (sc : Scene) (s : EditorState) (elem : Nat) : Option Nat :=
  match sc.parent elem with
  | none => none
  | some p => firstEditor s (sibsAfter elem (sc.childrenOf p))

mutual

/-- `GXElementEditor.openEditor`, indexed by fuel for the recursion up
the ancestor chain (running out of fuel is reported as an error, so an
`ok` result is always a faithful run).  Steps: the `isAttached` check,
the already-attached early return, `createEditor` (returning `null` for
an unregistered element kind), the parent loop, and finally `_attach`
(a no-op in the base class) plus `element.__editor__ = editor`. -/
def openEditorF (sc : Scene) : Nat → EditorState → Nat → Except String (Option Nat × EditorState)
  | 0, _, _ => .error "out of fuel"
  | Nat.succ f, s, e =>
    if e ∈ sc.attached then
      match s.slot e with
      | some ed => .ok (some ed, s)
      | none =>
        if sc.registered e then
          let ed := s.nextId
          let s1 := createFresh s e
          match parentLoopF sc f s1 e ed (sc.parent e) with
          | .error m => .error m
          | .ok s2 => .ok (some ed, { s2 with slot := upd s2.slot e (some ed) })
        else .ok (none, s)
    else .error "Node is not attached to create an editor for."

/-- The `for (var parentNode = element.getParent(); ...)` loop of
`GXElementEditor.openEditor`: take the parent's existing editor or open
one recursively; when an editor is found, compute the reference editor
from `elem`'s next siblings, insert the new editor `ed` and stop;
otherwise continue with the next ancestor. -/
def parentLoopF (sc : Scene) :
    Nat → EditorState → Nat → Nat → Option Nat → Except String EditorState
  | 0, _, _, _, _ => .error "out of fuel"
  | Nat.succ f, s, elem, ed, pn? =>
    match pn? with
    | none => .ok s
    | some pn =>
      match s.slot pn with
      | some pEd => insertEditor s pEd ed (findRefEditor sc s elem)
      | none =>
        match openEditorF sc f s pn with
        | .error m => .error m
        | .ok (some pEd, s2) => insertEditor s2 pEd ed (findRefEditor sc s2 elem)
        | .ok (none, s2) => parentLoopF sc f s2 elem ed (sc.parent pn)

end

mutual

/-- `GXElementEditor.closeEditor`, fuel-indexed: no-op without an
attached editor or for an unregistered element kind; otherwise close the
child editors (the JS loop iterates the live `_editors` array by
increasing index), remove the editor from its parent editor if any, run
`_detach` (a base-class no-op) and `delete element.__editor__`. -/
def closeEditorF (sc : Scene) : Nat → EditorState → Nat → Except String EditorState
  | 0, _, _ => .error "out of fuel"
  | Nat.succ f, s, e =>
    match s.slot e with
    | none => .ok s
    | some ed =>
      if sc.registered e then
        match
          ((match s.eds ed with
            | none => .ok s
            | some _ => closeChildrenF sc f ed 0 s) : Except String EditorState) with
        | .error m => .error m
        | .ok s1 =>
          match
            ((match s1.parentEd ed with
              | none => .ok s1
              | some pEd => removeEditor s1 pEd ed) : Except String EditorState) with
          | .error m => .error m
          | .ok s2 => .ok { s2 with slot := upd s2.slot e none }
      else .ok s

/-- The child-closing loop of `GXElementEditor.closeEditor`:
`for (var i = 0; i < editors.length; ++i) closeEditor(editors[i].getElement())`
over the live `_editors` array of editor `ed` (re-read on every
iteration, as the recursive close mutates it through `removeEditor`). -/
def closeChildrenF (sc : Scene) : Nat → Nat → Nat → EditorState → Except String EditorState
  | 0, _, _, _ => .error "out of fuel"
  | Nat.succ f, ed, i, s =>
    match s.eds ed with
    | none => .ok s
    | some l =>
      if h : i < l.length then
        match closeEditorF sc f s (s.elemOf (l.get ⟨i, h⟩)) with
        | .error m => .error m
        | .ok s2 => closeChildrenF sc f ed (i + 1) s2
      else .ok s

end

/-- Run `GXElementEditor.openEditor` on a sequence of elements in order,
all with the same fuel. -/
def runOpens (sc : Scene) (fuel : Nat) : List Nat → EditorState → Except String EditorState
  | [], s => .ok s
  | o :: os, s =>
    match openEditorF sc fuel s o with
    | .error m => .error m
    | .ok (_, s2) => runOpens sc fuel os s2

/-- Claim C2: `open` is idempotent — on an attached element that already
carries an editor, `GXElementEditor.openEditor` returns the editor
already in the attachment slot and the state is returned entirely
unchanged (no tree-structure or slot mutation). -/
theorem openEditor_idempotent (sc : Scene) (f : Nat) (s : EditorState) (e ed : Nat)
    (hatt : e ∈ sc.attached) (hslot : s.slot e = some ed) :
    openEditorF sc (f + 1) s e = .ok (some ed, s) := by
  simp [openEditorF, hatt, hslot]

/-- A one-element scene used as concrete input for witnesses. -/
def wScene : Scene :=
  { parent := fun _ => none
    childrenOf := fun _ => []
    attached := [0]
    registered := fun _ => true }

/-- A state in which element 0 already carries editor 0. -/
def wStateOpen : EditorState :=
  { nextId := 1
    slot := fun x => if x = 0 then some 0 else none
    elemOf := fun _ => 0
    eds := fun _ => none
    parentEd := fun _ => none }

/-- Witness for C2 at a concrete input. -/
theorem openEditor_idempotent_witness :
    0 ∈ wScene.attached ∧ wStateOpen.slot 0 = some 0 ∧
      openEditorF wScene 1 wStateOpen 0 = .ok (some 0, wStateOpen) :=
  ⟨by decide, rfl, openEditor_idempotent wScene 0 wStateOpen 0 0 (by decide) rfl⟩

/-
Per-editor-node behaviour: flags, staged transform lifecycle, part
selection, annotation bounding box.  `requestInvalidation` reaches out to
the host (`GXEditor...requestInvalidation(this, args)`); we model it by
logging the editor's flag bitset at the moment of each call, so that the
bracketing (pre-mutation call, post-mutation call) is observable.
`element.transform(...)` calls made by `applyTransform` are logged in
`applied`.
-/

/-- `GXElementEditor.Flag.Selected` (1 <<< 0). -/
def Flag.Selected : Nat := 1
/-- `GXElementEditor.Flag.Highlighted` (1 <<< 1). -/
def Flag.Highlighted : Nat := 2
/-- `GXElementEditor.Flag.Focused` (1 <<< 2). -/
def Flag.Focused : Nat := 4
/-- `GXElementEditor.Flag.Detail` (1 <<< 3). -/
def Flag.Detail : Nat := 8
/-- `GXElementEditor.Flag.Outline` (1 <<< 4). -/
def Flag.Outline : Nat := 16

/-- Modelled from the spec: the external geometry utility `GTransform`
(an affine transform, "consumed, not specified here"); its sources are
not part of this repository snapshot.  Fields are the 2x2 matrix and the
translation, over exact rationals. -/
structure GTransform where
  a : ℚ
  b : ℚ
  c : ℚ
  d : ℚ
  tx : ℚ
  ty : ℚ
deriving DecidableEq

/-- The identity affine transform. -/
def GTransform.identity : GTransform := ⟨1, 0, 0, 1, 0, 0⟩

/-- Modelled from the spec: `transform.isIdentity()`. -/
def GTransform.isIdentity (t : GTransform) : Bool := t = GTransform.identity

/-- Modelled from the spec: `transform.mapPoint(p)` — the affine image
of a point. -/
def GTransform.mapPoint (t : GTransform) (p : ℚ × ℚ) : ℚ × ℚ :=
  (t.a * p.1 + t.c * p.2 + t.tx, t.b * p.1 + t.d * p.2 + t.ty)

/-- Modelled from the spec: the null-tolerant static
`GTransform.equals(t1, t2)` used by `GXElementEditor.prototype.transform`
to compare the staged transform (possibly null) with the incoming one. -/
def optTransformEq : Option GTransform → Option GTransform → Bool
  | none, none => true
  | some x, some y => x = y
  | _, _ => false

/-- The observable state of one editor node: `flags` is `_flags`,
`staged` is `_transform`, `partSel` is `_partSelection`; `invLog` logs
the flag bitset seen by each outgoing `requestInvalidation` call and
`applied` logs the transforms handed to `element.transform(...)`. -/
structure ENode where
  flags : Nat
  staged : Option GTransform
  partSel : Option (List Nat)
  invLog : List Nat
  applied : List GTransform
deriving DecidableEq

/-- `GXElementEditor.prototype.requestInvalidation` (observable part). -/
def ENode.requestInvalidation (n : ENode) : ENode :=
  { n with invLog := n.invLog ++ [n.flags] }

/-- `GXElementEditor.prototype.hasFlag`. -/
def ENode.hasFlag (n : ENode) (f : Nat) : Bool := n.flags &&& f != 0

/-- `GXElementEditor.prototype.setFlag`: no-op when the flag is present,
otherwise invalidate, set the bit, invalidate again. -/
def ENode.setFlag (n : ENode) (f : Nat) : ENode :=
  if n.flags &&& f = 0 then
    let n1 := n.requestInvalidation
    let n2 := { n1 with flags := n1.flags ||| f }
    n2.requestInvalidation
  else n

/-- `GXElementEditor.prototype.removeFlag`: no-op when the flag is
absent, otherwise invalidate, clear the bit (`_flags & ~flag`),
invalidate again. -/
def ENode.removeFlag (n : ENode) (f : Nat) : ENode :=
  if n.flags &&& f ≠ 0 then
    let n1 := n.requestInvalidation
    let n2 := { n1 with flags := Nat.ldiff n1.flags f }
    n2.requestInvalidation
  else n

/-- `GXElementEditor.prototype.transform` (default behaviour): when the
incoming transform differs from the staged one, raise the Outline flag
(or just invalidate when it is already up), stage the transform, and
invalidate for the new extent. -/
def ENode.transform (n : ENode) (t : GTransform) : ENode :=
  if optTransformEq n.staged (some t) then n
  else
    let n1 := if !n.hasFlag Flag.Outline then n.setFlag Flag.Outline else n.requestInvalidation
    let n2 := { n1 with staged := some t }
    n2.requestInvalidation

/-- `GXElementEditor.prototype.resetTransform`: invalidate if a
non-identity transform was staged, clear the staged transform, drop the
Outline flag. -/
def ENode.resetTransform (n : ENode) : ENode :=
  let n1 :=
    match n.staged with
    | some tr => if !tr.isIdentity then n.requestInvalidation else n
    | none => n
  let n2 := { n1 with staged := none }
  n2.removeFlag Flag.Outline

/-- `GXElementEditor.prototype.applyTransform`: dereferences
`this._transform.isIdentity()` (a JS `TypeError` when nothing is
staged), transfers a non-identity staged transform to the element
exactly once, then resets. -/
def ENode.applyTransform (n : ENode) : Except String ENode :=
  match n.staged with
  | none => .error "TypeError: cannot read isIdentity of null"
  | some tr =>
    let n1 := if !tr.isIdentity then { n with applied := n.applied ++ [tr] } else n
    .ok n1.resetTransform

/-- `GXElementEditor.prototype._indexOfPartId` with the default
`_partIdAreEqual` (reference equality): first index or -1. -/
def jsIndexOfPartId (arr : Option (List Nat)) (pid : Nat) : Int :=
  match arr with
  | none => -1
  | some a => if pid ∈ a then (a.indexOf pid : Int) else -1

/-- Modelled from the spec: `gUtil.equals(a, b, false)` — `gUtil` is not
part of this repository snapshot; the spec describes the comparison as
"by value, order-insensitive" and null-aware. -/
def gUtilEqualsSets : Option (List Nat) → Option (List Nat) → Bool
  | none, none => true
  | some a, some b => a.length == b.length && a.all (b.contains ·) && b.all (a.contains ·)
  | _, _ => false

/-- `GXElementEditor.prototype._updatePartSelection`: bracketed
invalidation around the selection replacement. -/
def ENode.updatePartSelectionRaw (n : ENode) (sel : Option (List Nat)) : ENode :=
  let n1 := n.requestInvalidation
  let n2 := { n1 with partSel := sel }
  n2.requestInvalidation

/-- `GXElementEditor.prototype.updatePartSelection`: no-op unless the
Selected flag is set; overwrite mode (or no current selection) copies
the incoming ids; toggle mode merges (keep current ids not in the
incoming set, append incoming ids not currently selected); an empty
result collapses to null, and the state is replaced only when the new
selection differs from the current one under `gUtil.equals`. -/
def ENode.updatePartSelection (n : ENode) (toggle : Bool) (selection : Option (List Nat)) :
    ENode :=
  if n.hasFlag Flag.Selected then
    let newSelection : Option (List Nat) :=
      if toggle = false ∨ n.partSel = none then
        match selection with
        | some s => if s.length > 0 then some s else none
        | none => none
      else
        match selection with
        | none => none
        | some sel =>
          let cur := n.partSel.getD []
          let keep := cur.filter (fun x => jsIndexOfPartId (some sel) x < 0)
          let add := sel.filter (fun x => jsIndexOfPartId n.partSel x < 0)
          let merged := keep ++ add
          if merged.length = 0 then none else some merged
    if !gUtilEqualsSets newSelection n.partSel then n.updatePartSelectionRaw newSelection
    else n
  else n

/-- Modelled from the spec: the external `GRect` rectangle utility
(x, y, width, height). -/
structure GRect where
  x : ℚ
  y : ℚ
  w : ℚ
  h : ℚ
deriving DecidableEq

/-- `GXElementEditor.OPTIONS.annotationSizeRegular`. -/
def OPTIONS.annotationSizeRegular : ℚ := 6

/-- `GXElementEditor.OPTIONS.annotationSizeSmall`. -/
def OPTIONS.annotationSizeSmall : ℚ := 4

/-- The `center = transform.mapPoint(center)` step shared by the
annotation paint and bbox routines. -/
def mappedCenter (transform : Option GTransform) (center : ℚ × ℚ) : ℚ × ℚ :=
  match transform with
  | some t => t.mapPoint center
  | none => center

/-- `GXElementEditor.prototype._getAnnotationBBox`: map the center, snap
to the pixel grid (`Math.floor(...) + 0.5`), and return the rect of side
`size + 2` around it.  The paint context is not an input of this
computation. -/
def getAnnotationBBox (transform : Option GTransform) (center : ℚ × ℚ) (small : Bool) :
    GRect :=
  let cpt := mappedCenter transform center
  let size := if small then OPTIONS.annotationSizeSmall else OPTIONS.annotationSizeRegular
  let cx : ℚ := ⌊cpt.1⌋ + 1 / 2
  let cy : ℚ := ⌊cpt.2⌋ + 1 / 2
  ⟨cx - size / 2 - 1, cy - size / 2 - 1, size + 2, size + 2⟩

/-- Clearing bits with `ldiff` really clears them. -/
theorem land_ldiff_self (x f : Nat) : Nat.ldiff x f &&& f = 0 := by
  apply Nat.eq_of_testBit_eq
  intro i
  simp only [Nat.testBit_land, Nat.testBit_ldiff, Nat.zero_testBit]
  cases f.testBit i <;> simp

/-- Claim C7: `setFlag` on an already-set flag and `removeFlag` on an
already-cleared flag leave the editor node untouched (in particular the
flag bitset is unchanged and no invalidation request is issued);
otherwise the single bit change is bracketed by exactly two invalidation
requests, the first observing the pre-change bitset and the second the
post-change bitset. -/
theorem flag_mutation_spec (n : ENode) (f : Nat) :
    (n.flags &&& f ≠ 0 → n.setFlag f = n) ∧
    (n.flags &&& f = 0 → n.removeFlag f = n) ∧
    (n.flags &&& f = 0 →
      (n.setFlag f).flags = n.flags ||| f ∧
      (n.setFlag f).invLog = n.invLog ++ [n.flags, n.flags ||| f] ∧
      (n.setFlag f).staged = n.staged ∧ (n.setFlag f).partSel = n.partSel) ∧
    (n.flags &&& f ≠ 0 →
      (n.removeFlag f).flags = Nat.ldiff n.flags f ∧
      (n.removeFlag f).invLog = n.invLog ++ [n.flags, Nat.ldiff n.flags f] ∧
      (n.removeFlag f).staged = n.staged ∧ (n.removeFlag f).partSel = n.partSel) := by
  refine ⟨fun h => ?_, fun h => ?_, fun h => ?_, fun h => ?_⟩ <;>
    simp [ENode.setFlag, ENode.removeFlag, ENode.requestInvalidation, h]

/-- A concrete editor node with the Outline flag set and a staged
doubling transform. -/
def wNodeOutline : ENode :=
  { flags := 16, staged := some ⟨2, 0, 0, 2, 0, 0⟩, partSel := none, invLog := [], applied := [] }

/-- Witness for C7 at concrete inputs (flag 16 set, flag 1 clear). -/
theorem flag_mutation_spec_witness :
    (wNodeOutline.flags &&& 16 ≠ 0 ∧ wNodeOutline.setFlag 16 = wNodeOutline) ∧
    (wNodeOutline.flags &&& 1 = 0 ∧ wNodeOutline.removeFlag 1 = wNodeOutline) ∧
    ((wNodeOutline.setFlag 1).flags = wNodeOutline.flags ||| 1 ∧
      (wNodeOutline.setFlag 1).invLog = wNodeOutline.invLog ++ [wNodeOutline.flags, wNodeOutline.flags ||| 1]) ∧
    ((wNodeOutline.removeFlag 16).flags = Nat.ldiff wNodeOutline.flags 16 ∧
      (wNodeOutline.removeFlag 16).invLog = wNodeOutline.invLog ++ [wNodeOutline.flags, Nat.ldiff wNodeOutline.flags 16]) :=
  ⟨⟨by decide, (flag_mutation_spec wNodeOutline 16).1 (by decide)⟩,
    ⟨by decide, (flag_mutation_spec wNodeOutline 1).2.1 (by decide)⟩,
    ⟨((flag_mutation_spec wNodeOutline 1).2.2.1 (by decide)).1,
      ((flag_mutation_spec wNodeOutline 1).2.2.1 (by decide)).2.1⟩,
    ⟨((flag_mutation_spec wNodeOutline 16).2.2.2 (by decide)).1,
      ((flag_mutation_spec wNodeOutline 16).2.2.2 (by decide)).2.1⟩⟩

/-- `removeFlag` never touches the `applied` log. -/
theorem removeFlag_applied (n : ENode) (f : Nat) : (n.removeFlag f).applied = n.applied := by
  simp only [ENode.removeFlag, ENode.requestInvalidation]
  split <;> rfl

/-- `removeFlag` never touches the staged transform. -/
theorem removeFlag_staged (n : ENode) (f : Nat) : (n.removeFlag f).staged = n.staged := by
  simp only [ENode.removeFlag, ENode.requestInvalidation]
  split <;> rfl

/-- After `removeFlag f` the flag `f` is down. -/
theorem removeFlag_land_self (n : ENode) (f : Nat) : (n.removeFlag f).flags &&& f = 0 := by
  simp only [ENode.removeFlag, ENode.requestInvalidation]
  split
  · exact land_ldiff_self _ _
  · omega

/-- `resetTransform` never touches the `applied` log. -/
theorem resetTransform_applied (n : ENode) : n.resetTransform.applied = n.applied := by
  simp only [ENode.resetTransform, removeFlag_applied]
  cases n.staged
  · rfl
  · dsimp only
    split <;> rfl

/-- `resetTransform` clears the staged transform. -/
theorem resetTransform_staged (n : ENode) : n.resetTransform.staged = none := by
  simp only [ENode.resetTransform, removeFlag_staged]

/-- `resetTransform` leaves the Outline flag down. -/
theorem resetTransform_outline (n : ENode) : n.resetTransform.flags &&& Flag.Outline = 0 := by
  simp only [ENode.resetTransform]
  exact removeFlag_land_self _ _

/-- Claim C6: with a staged non-identity transform `T`, `applyTransform`
hands exactly one transform — `T` — to the element's transform-apply,
then clears the staged transform and removes the Outline flag. -/
theorem applyTransform_spec (n : ENode) (T : GTransform)
    (hstaged : n.staged = some T) (hni : T.isIdentity = false) :
    ∃ m, n.applyTransform = .ok m ∧ m.applied = n.applied ++ [T] ∧
      m.staged = none ∧ m.flags &&& Flag.Outline = 0 := by
  refine ⟨({ n with applied := n.applied ++ [T] } : ENode).resetTransform, ?_, ?_, ?_, ?_⟩
  · simp [ENode.applyTransform, hstaged, hni]
  · rw [resetTransform_applied]
  · exact resetTransform_staged _
  · exact resetTransform_outline _

/-- Witness for C6: the doubling transform staged on `wNodeOutline`. -/
theorem applyTransform_spec_witness :
    wNodeOutline.staged = some ⟨2, 0, 0, 2, 0, 0⟩ ∧
      GTransform.isIdentity ⟨2, 0, 0, 2, 0, 0⟩ = false ∧
      ∃ m, wNodeOutline.applyTransform = .ok m ∧ m.applied = wNodeOutline.applied ++ [⟨2, 0, 0, 2, 0, 0⟩] ∧
        m.staged = none ∧ m.flags &&& Flag.Outline = 0 :=
  ⟨rfl, by decide, applyTransform_spec wNodeOutline ⟨2, 0, 0, 2, 0, 0⟩ rfl (by decide)⟩

/-- Claim C10: `applyTransform` with no staged transform dereferences
`this._transform.isIdentity()` on null and fails with a runtime type
error instead of being a soft no-op. -/
theorem applyTransform_null_staged (n : ENode) (h : n.staged = none) :
    n.applyTransform = .error "TypeError: cannot read isIdentity of null" := by
  simp [ENode.applyTransform, h]

/-- A freshly-constructed editor node (all prototype defaults). -/
def wNodeFresh : ENode :=
  { flags := 0, staged := none, partSel := none, invLog := [], applied := [] }

/-- Witness for C10 on a node with nothing staged. -/
theorem applyTransform_null_staged_witness :
    wNodeFresh.staged = none ∧
      wNodeFresh.applyTransform = .error "TypeError: cannot read isIdentity of null" :=
  ⟨rfl, applyTransform_null_staged wNodeFresh rfl⟩

/-- Claim C9: for every view transform and center point, the annotation
bbox query at the regular annotation size 6 yields an axis-aligned box of
width and height exactly `size + 2 = 8`, centered on the pixel-snapped
mapped center (`Math.floor` of each mapped coordinate plus 0.5); the
computation takes no paint context at all. -/
theorem annotationBBox_regular (t : Option GTransform) (center : ℚ × ℚ) :
    OPTIONS.annotationSizeRegular = 6 ∧
    (getAnnotationBBox t center false).w = OPTIONS.annotationSizeRegular + 2 ∧
    (getAnnotationBBox t center false).w = 8 ∧
    (getAnnotationBBox t center false).h = 8 ∧
    (getAnnotationBBox t center false).x + (getAnnotationBBox t center false).w / 2
      = ⌊(mappedCenter t center).1⌋ + 1 / 2 ∧
    (getAnnotationBBox t center false).y + (getAnnotationBBox t center false).h / 2
      = ⌊(mappedCenter t center).2⌋ + 1 / 2 := by
  refine ⟨rfl, ?_, ?_, ?_, ?_, ?_⟩ <;>
    · simp [getAnnotationBBox, OPTIONS.annotationSizeRegular, OPTIONS.annotationSizeSmall]
      try ring

/-- `indexOf` finds the first occurrence: with `r` absent from the
prefix, the index is the prefix length. -/
theorem indexOf_first_occurrence (r : Nat) (l1 l2 : List Nat) (h : r ∉ l1) :
    (l1 ++ r :: l2).indexOf r = l1.length := by
  induction l1 with
  | nil => simp [List.indexOf_cons_self]
  | cons a as ih =>
    have ha : a ≠ r := fun hc => h (by simp [hc])
    have has : r ∉ as := fun hc => h (by simp [hc])
    simp [List.indexOf_cons_ne _ ha, ih has, Nat.succ_eq_add_one]

/-- Claim C8: the structural child primitives.  `insertEditor` fails when
the inserted node already has a `parentEditor` or when the non-null
reference editor is not currently among the parent's children (including
the `_editors = null` case); `removeEditor` fails when the node is not
currently a child.  On success, insertion places the node immediately
before the reference editor (appending for a null reference) and sets
`parentEditor`; removal erases the node from the child list and clears
`parentEditor`. -/
theorem insert_remove_primitives :
    (∀ s p c q, s.parentEd c = some q → ∃ m, insertEditor s p c none = .error m) ∧
    (∀ s p c q r, s.parentEd c = some q → r ∈ (s.eds p).getD [] →
      ∃ m, insertEditor s p c (some r) = .error m) ∧
    (∀ s p c r, r ∉ (s.eds p).getD [] → ∃ m, insertEditor s p c (some r) = .error m) ∧
    (∀ s p c, c ∉ (s.eds p).getD [] → ∃ m, removeEditor s p c = .error m) ∧
    (∀ s p c, s.parentEd c = none →
      insertEditor s p c none =
        .ok { s with eds := upd s.eds p (some ((s.eds p).getD [] ++ [c])),
                     parentEd := upd s.parentEd c (some p) }) ∧
    (∀ s p c r l1 l2, s.parentEd c = none → (s.eds p).getD [] = l1 ++ r :: l2 → r ∉ l1 →
      insertEditor s p c (some r) =
        .ok { s with eds := upd s.eds p (some (l1 ++ c :: r :: l2)),
                     parentEd := upd s.parentEd c (some p) }) ∧
    (∀ s p c l, s.eds p = some l → c ∈ l →
      removeEditor s p c =
        .ok { s with eds := upd s.eds p (some (l.erase c)),
                     parentEd := upd s.parentEd c none }) := by
  refine ⟨?_, ?_, ?_, ?_, ?_, ?_, ?_⟩
  · intro s p c q h
    exact ⟨"Editor already appended.", by simp [insertEditor, insertAt, h]⟩
  · intro s p c q r h hr
    cases heds : s.eds p with
    | none => exact ⟨"TypeError: cannot read indexOf of null", by simp [insertEditor, heds]⟩
    | some l =>
      rw [heds] at hr
      simp only [Option.getD_some] at hr
      exact ⟨"Editor already appended.", by simp [insertEditor, heds, hr, insertAt, h]⟩
  · intro s p c r h
    cases heds : s.eds p with
    | none => exact ⟨"TypeError: cannot read indexOf of null", by simp [insertEditor, heds]⟩
    | some l =>
      rw [heds] at h
      simp only [Option.getD_some] at h
      exact ⟨"Unknown reference editor.", by simp [insertEditor, heds, h]⟩
  · intro s p c h
    cases heds : s.eds p with
    | none => exact ⟨"TypeError: cannot read indexOf of null", by simp [removeEditor, heds]⟩
    | some l =>
      rw [heds] at h
      simp only [Option.getD_some] at h
      exact ⟨"Unknown editor.", by simp [removeEditor, heds, h]⟩
  · intro s p c h
    simp [insertEditor, insertAt, h]
  · intro s p c r l1 l2 h hsplit hr
    obtain ⟨l, heds⟩ : ∃ l, s.eds p = some l := by
      cases heds2 : s.eds p with
      | none =>
        exfalso
        rw [heds2] at hsplit
        simp at hsplit
      | some l => exact ⟨l, rfl⟩
    rw [heds] at hsplit
    simp only [Option.getD_some] at hsplit
    subst hsplit
    have hmem : r ∈ l1 ++ r :: l2 := List.mem_append_right l1 (List.mem_cons_self r l2)
    have hidx : (l1 ++ r :: l2).indexOf r = l1.length := indexOf_first_occurrence r l1 l2 hr
    have hlt : ¬ l1.length ≥ (l1 ++ r :: l2).length := by simp
    simp [insertEditor, heds, hmem, insertAt, h, hidx, hlt, List.take_left, List.drop_left]
  · intro s p c l heds hc
    simp [removeEditor, heds, hc]

/-- A concrete editor tree: editor 0 has children [1, 2]; editor 3 is
parentless. -/
def wsTree : EditorState :=
  { nextId := 4
    slot := fun _ => none
    elemOf := fun _ => 0
    eds := fun x => if x = 0 then some [1, 2] else none
    parentEd := fun x => if x = 1 ∨ x = 2 then some 0 else none }

/-- Witness for C8 at concrete inputs. -/
theorem insert_remove_primitives_witness :
    (wsTree.parentEd 1 = some 0 ∧ (∃ m, insertEditor wsTree 0 1 none = .error m)) ∧
    (wsTree.parentEd 1 = some 0 ∧ 2 ∈ (wsTree.eds 0).getD [] ∧
      (∃ m, insertEditor wsTree 0 1 (some 2) = .error m)) ∧
    (3 ∉ (wsTree.eds 0).getD [] ∧ (∃ m, insertEditor wsTree 0 3 (some 3) = .error m)) ∧
    (3 ∉ (wsTree.eds 0).getD [] ∧ (∃ m, removeEditor wsTree 0 3 = .error m)) ∧
    (wsTree.parentEd 3 = none ∧
      insertEditor wsTree 0 3 none =
        .ok { wsTree with eds := upd wsTree.eds 0 (some ((wsTree.eds 0).getD [] ++ [3])),
                          parentEd := upd wsTree.parentEd 3 (some 0) }) ∧
    ((wsTree.eds 0).getD [] = [1] ++ 2 :: [] ∧ 2 ∉ ([1] : List Nat) ∧
      insertEditor wsTree 0 3 (some 2) =
        .ok { wsTree with eds := upd wsTree.eds 0 (some ([1] ++ 3 :: 2 :: [])),
                          parentEd := upd wsTree.parentEd 3 (some 0) }) ∧
    (wsTree.eds 0 = some [1, 2] ∧ 1 ∈ ([1, 2] : List Nat) ∧
      removeEditor wsTree 0 1 =
        .ok { wsTree with eds := upd wsTree.eds 0 (some (([1, 2] : List Nat).erase 1)),
                          parentEd := upd wsTree.parentEd 1 none }) :=
  ⟨⟨by decide, insert_remove_primitives.1 wsTree 0 1 0 (by decide)⟩,
    ⟨by decide, by decide, insert_remove_primitives.2.1 wsTree 0 1 0 2 (by decide) (by decide)⟩,
    ⟨by decide, insert_remove_primitives.2.2.1 wsTree 0 3 3 (by decide)⟩,
    ⟨by decide, insert_remove_primitives.2.2.2.1 wsTree 0 3 (by decide)⟩,
    ⟨by decide, insert_remove_primitives.2.2.2.2.1 wsTree 0 3 (by decide)⟩,
    ⟨by decide, by decide,
      insert_remove_primitives.2.2.2.2.2.1 wsTree 0 3 2 [1] [] (by decide) (by decide) (by decide)⟩,
    ⟨by decide, by decide,
      insert_remove_primitives.2.2.2.2.2.2 wsTree 0 1 [1, 2] (by decide) (by decide)⟩⟩

/-
Hit testing (`GXElementEditor.prototype.getPartInfoAt`).  The per-node
geometry (`getBBox` at the fixed view transform and location, and the
kind-specific `_getPartInfoAt`) is abstracted into an environment; the
editor tree shape is an inductive tree of editor ids.
-/

/-- Modelled from the spec: `rect.isEmpty()` of the external `GRect`
utility — a rectangle with no extent. -/
def GRect.isEmpty (r : GRect) : Bool := decide (r.w ≤ 0 ∨ r.h ≤ 0)

/-- Modelled from the spec: `rect.containsPoint(p)` of the external
`GRect` utility. -/
def GRect.containsPoint (r : GRect) (p : ℚ × ℚ) : Bool :=
  decide (r.x ≤ p.1 ∧ p.1 ≤ r.x + r.w ∧ r.y ≤ p.2 ∧ p.2 ≤ r.y + r.h)

/-- The per-editor geometry consulted by `getPartInfoAt`: `getBBox` is
the editor's own bbox (in view coordinates, at the fixed transform) and
`partInfoAt` is the result of the kind-specific `_getPartInfoAt` at the
fixed location (a part id, or none). -/
structure HitEnv where
  getBBox : Nat → Option GRect
  partInfoAt : Nat → Option Nat

/-- An editor tree: an editor id with its ordered `_editors` children. -/
inductive ETree where
  | node (id : Nat) (children : List ETree)

/-- The acceptor step of `getPartInfoAt`:
`if (acceptor && acceptor.call(null, this) !== true) return null`. -/
def acceptOk (acc : Option (Nat → Bool)) (i : Nat) : Bool :=
  match acc with
  | none => true
  | some a => a i

/-- The self-test of `getPartInfoAt`: bbox non-null, non-empty and
containing the location, then the kind-specific part lookup. -/
def selfHit (env : HitEnv) (loc : ℚ × ℚ) (i : Nat) : Option (Nat × Nat) :=
  match env.getBBox i with
  | some bb =>
    if !bb.isEmpty && bb.containsPoint loc then
      match env.partInfoAt i with
      | some pid => some (i, pid)
      | none => none
    else none
  | none => none

mutual

/-- `GXElementEditor.prototype.getPartInfoAt`: iterate sub editors from
last to first, returning the first hit; only if no child hit, run the
acceptor test and then the own-bbox/self test.  A hit is the pair
(editor id, part id). -/
def getPartInfoAt (env : HitEnv) (loc : ℚ × ℚ) (acc : Option (Nat → Bool)) :
    ETree → Option (Nat × Nat)
  | ETree.node i cs =>
    match childScanRev env loc acc cs with
    | some r => some r
    | none => if acceptOk acc i then selfHit env loc i else none

/-- The `for (var i = this._editors.length - 1; i >= 0; --i)` loop:
scan the suffix (the later-inserted editors) first, then the head. -/
def childScanRev (env : HitEnv) (loc : ℚ × ℚ) (acc : Option (Nat → Bool)) :
    List ETree → Option (Nat × Nat)
  | [] => none
  | t :: ts =>
    match childScanRev env loc acc ts with
    | some r => some r
    | none => getPartInfoAt env loc acc t

end

mutual

/-- The order in which `getPartInfoAt` probes editors: children from
last to first (each recursively), then the node itself. -/
def reverseDFS : ETree → List Nat
  | ETree.node i cs => revFlat cs ++ [i]

/-- Reverse-order flattening of a child list. -/
def revFlat : List ETree → List Nat
  | [] => []
  | t :: ts => revFlat ts ++ reverseDFS t

end

/-- What a single probe contributes: nothing when the acceptor rejects
the editor, its self-test otherwise. -/
def probe (env : HitEnv) (loc : ℚ × ℚ) (acc : Option (Nat → Bool)) (i : Nat) :
    Option (Nat × Nat) :=
  if acceptOk acc i then selfHit env loc i else none

/-- `findSome?` on a one-element list is just the probe of that
element. -/
theorem findSome?_singleton {α β : Type} (f : α → Option β) (a : α) :
    [a].findSome? f = f a := by
  cases h : f a <;> simp [List.findSome?, h]

mutual

/-- `getPartInfoAt` is the first successful probe in reverse-DFS order. -/
theorem getPartInfoAt_eq_findSome (env : HitEnv) (loc : ℚ × ℚ) (acc : Option (Nat → Bool)) :
    ∀ t, getPartInfoAt env loc acc t = (reverseDFS t).findSome? (probe env loc acc)
  | ETree.node i cs => by
    rw [getPartInfoAt, reverseDFS, List.findSome?_append,
      childScanRev_eq_findSome env loc acc cs]
    cases (revFlat cs).findSome? (probe env loc acc) with
    | some r => rfl
    | none => rw [Option.none_or, findSome?_singleton]; rfl

/-- The child scan is the first successful probe in the reversed
flattening of the child list. -/
theorem childScanRev_eq_findSome (env : HitEnv) (loc : ℚ × ℚ) (acc : Option (Nat → Bool)) :
    ∀ ts, childScanRev env loc acc ts = (revFlat ts).findSome? (probe env loc acc)
  | [] => rfl
  | t :: ts => by
    rw [childScanRev, revFlat, List.findSome?_append,
      childScanRev_eq_findSome env loc acc ts, getPartInfoAt_eq_findSome env loc acc t]
    cases (revFlat ts).findSome? (probe env loc acc) with
    | some r => rfl
    | none => rfl

end

/-- Claim C4: hit-testing probes children last-to-first before self and
returns the first hit: `getPartInfoAt` equals the first successful probe
in reverse-DFS order (children reversed recursively, then self), so for
two overlapping accepted siblings the later-inserted wins and is
returned without testing further children or self; an acceptor-rejected
node contributes no self-hit but its subtree is still scanned; no
successful probe anywhere yields null. -/
theorem hitTest_spec :
    (∀ env loc acc t,
      getPartInfoAt env loc acc t = (reverseDFS t).findSome? (probe env loc acc)) ∧
    (∀ env loc acc i a b r, getPartInfoAt env loc acc b = some r →
      getPartInfoAt env loc acc (ETree.node i [a, b]) = some r) ∧
    (∀ env loc acc i cs, acceptOk acc i = false →
      getPartInfoAt env loc acc (ETree.node i cs) = childScanRev env loc acc cs) ∧
    (∀ env loc acc t, (∀ i, probe env loc acc i = none) →
      getPartInfoAt env loc acc t = none) := by
  refine ⟨getPartInfoAt_eq_findSome, ?_, ?_, ?_⟩
  · intro env loc acc i a b r h
    rw [getPartInfoAt, childScanRev, childScanRev, childScanRev, h]
  · intro env loc acc i cs h
    rw [getPartInfoAt, h]
    cases childScanRev env loc acc cs <;> simp
  · intro env loc acc t h
    rw [getPartInfoAt_eq_findSome]
    induction reverseDFS t with
    | nil => rfl
    | cons x xs ih => rw [List.findSome?_cons, h x, ih]

/-- A hit environment where every editor has the 10x10 bbox at the
origin and a part id `i + 100`. -/
def wHitEnv : HitEnv :=
  { getBBox := fun _ => some ⟨0, 0, 10, 10⟩
    partInfoAt := fun i => some (i + 100) }

/-- Witness for C4: two overlapping siblings (ids 1 and 2, inserted in
that order) under root 0; the later-inserted editor 2 wins, a rejected
root still lets the subtree be scanned, and a probe-free environment
yields no hit. -/
theorem hitTest_spec_witness :
    (getPartInfoAt wHitEnv (1, 1) none (ETree.node 2 []) = some (2, 102) ∧
      getPartInfoAt wHitEnv (1, 1) none
          (ETree.node 0 [ETree.node 1 [], ETree.node 2 []]) = some (2, 102)) ∧
    (acceptOk (some (fun i => !(i == 0))) 0 = false ∧
      getPartInfoAt wHitEnv (1, 1) (some (fun i => !(i == 0))) (ETree.node 0 [ETree.node 1 []]) =
        childScanRev wHitEnv (1, 1) (some (fun i => !(i == 0))) [ETree.node 1 []]) ∧
    ((∀ i, probe wHitEnv (20, 20) none i = none) ∧
      getPartInfoAt wHitEnv (20, 20) none (ETree.node 0 [ETree.node 1 []]) = none) := by
  have hb : getPartInfoAt wHitEnv (1, 1) none (ETree.node 2 []) = some (2, 102) := by
    norm_num [getPartInfoAt, childScanRev, selfHit, acceptOk, wHitEnv,
      GRect.isEmpty, GRect.containsPoint]
  have hmiss : ∀ i, probe wHitEnv (20, 20) none i = none := by
    intro i
    norm_num [probe, selfHit, acceptOk, wHitEnv, GRect.isEmpty, GRect.containsPoint]
  exact ⟨⟨hb, hitTest_spec.2.1 wHitEnv (1, 1) none 0 (ETree.node 1 []) (ETree.node 2 [])
        (2, 102) hb⟩,
    ⟨rfl, hitTest_spec.2.2.1 wHitEnv (1, 1) (some (fun i => !(i == 0))) 0 [ETree.node 1 []] rfl⟩,
    ⟨hmiss, hitTest_spec.2.2.2 wHitEnv (20, 20) none (ETree.node 0 [ETree.node 1 []]) hmiss⟩⟩

/-- `_indexOfPartId` is negative exactly for non-members. -/
theorem jsIndexOfPartId_neg (a : List Nat) (x : Nat) :
    jsIndexOfPartId (some a) x < 0 ↔ x ∉ a := by
  by_cases h : x ∈ a
  · simp only [jsIndexOfPartId]
    rw [if_pos h]
    constructor
    · intro hc
      exact ((Int.natCast_nonneg (a.indexOf x)).not_lt hc).elim
    · intro hc
      exact absurd h hc
  · simp [jsIndexOfPartId, h]

/-- The toggle-mode merge list computed by `updatePartSelection`. -/
def jsMerge (cur sel : List Nat) : List Nat :=
  cur.filter (fun x => jsIndexOfPartId (some sel) x < 0) ++
    sel.filter (fun x => jsIndexOfPartId (some cur) x < 0)

/-- Membership in the toggle merge is the symmetric difference. -/
theorem mem_jsMerge (cur sel : List Nat) (x : Nat) :
    x ∈ jsMerge cur sel ↔ (x ∈ cur ∧ x ∉ sel) ∨ (x ∈ sel ∧ x ∉ cur) := by
  simp [jsMerge, List.mem_filter, jsIndexOfPartId_neg]

/-- `gUtil.equals` (as modelled) between two present selections gives
equal lengths and mutual containment. -/
theorem gUtilEqualsSets_some_some (a b : List Nat)
    (h : gUtilEqualsSets (some a) (some b) = true) :
    a.length = b.length ∧ (∀ x ∈ a, x ∈ b) ∧ (∀ x ∈ b, x ∈ a) := by
  simp only [gUtilEqualsSets, Bool.and_eq_true, beq_iff_eq, List.all_eq_true] at h
  refine ⟨h.1.1, fun x hx => ?_, fun x hx => ?_⟩
  · have := h.1.2 x hx
    simpa using this
  · have := h.2 x hx
    simpa using this

/-- If the merge compares `gUtil`-equal to the current selection then it
is literally the current selection: appended ids live outside `cur`, so
there are none, and a full-length filter of `cur` is `cur`. -/
theorem jsMerge_eq_of_equals (cur sel : List Nat)
    (h : gUtilEqualsSets (some (jsMerge cur sel)) (some cur) = true) :
    jsMerge cur sel = cur := by
  obtain ⟨hlen, hab, _⟩ := gUtilEqualsSets_some_some _ _ h
  have hadd : sel.filter (fun x => jsIndexOfPartId (some cur) x < 0) = [] := by
    rw [List.eq_nil_iff_forall_not_mem]
    intro x hx
    rw [List.mem_filter] at hx
    have hxcur : x ∉ cur := by
      have := hx.2
      rw [decide_eq_true_eq, jsIndexOfPartId_neg] at this
      exact this
    exact hxcur (hab x (by simp [jsMerge, List.mem_append, hx.1, hx.2, List.mem_filter]))
  have hkeep : jsMerge cur sel = cur.filter (fun x => jsIndexOfPartId (some sel) x < 0) := by
    rw [jsMerge, hadd, List.append_nil]
  rw [hkeep]
  apply List.Sublist.eq_of_length (List.filter_sublist cur)
  rw [← hkeep, hlen]

/-- `updatePartSelection` never touches the flag bitset. -/
theorem updatePartSelection_flags (n : ENode) (t : Bool) (s : Option (List Nat)) :
    (n.updatePartSelection t s).flags = n.flags := by
  unfold ENode.updatePartSelection ENode.updatePartSelectionRaw ENode.requestInvalidation
  dsimp only
  repeat' split
  all_goals rfl

/-- One toggle step on a present selection: the new selection is the
merge, collapsed to none when empty. -/
theorem updPS_toggle_some (n : ENode) (sel cur : List Nat)
    (hsel : n.hasFlag Flag.Selected = true) (hcur : n.partSel = some cur) :
    (n.updatePartSelection true (some sel)).partSel =
      if jsMerge cur sel = [] then none else some (jsMerge cur sel) := by
  rw [jsMerge]
  unfold ENode.updatePartSelection
  rw [hsel]
  simp only [if_true, hcur, Option.getD_some, Bool.true_eq_false, false_or, reduceCtorEq,
    if_false, List.length_eq_zero]
  by_cases hM :
      cur.filter (fun x => jsIndexOfPartId (some sel) x < 0) ++
        sel.filter (fun x => jsIndexOfPartId (some cur) x < 0) = []
  · simp only [hM, if_pos rfl, if_true]
    simp [gUtilEqualsSets, ENode.updatePartSelectionRaw, ENode.requestInvalidation]
  · simp only [if_neg hM]
    by_cases hEq :
        gUtilEqualsSets
          (some (cur.filter (fun x => jsIndexOfPartId (some sel) x < 0) ++
            sel.filter (fun x => jsIndexOfPartId (some cur) x < 0))) (some cur) = true
    · have hMc := jsMerge_eq_of_equals cur sel (by rw [jsMerge]; exact hEq)
      rw [jsMerge] at hMc
      rw [hMc] at hEq ⊢
      simp only [hEq, Bool.not_true, Bool.false_eq_true, if_false, hcur]
    · rw [Bool.not_eq_true] at hEq
      simp only [hEq, Bool.not_false, if_true]
      simp [ENode.updatePartSelectionRaw, ENode.requestInvalidation]

/-- One toggle step with no current selection behaves like overwrite. -/
theorem updPS_toggle_none (n : ENode) (sel : List Nat)
    (hsel : n.hasFlag Flag.Selected = true) (hcur : n.partSel = none) :
    (n.updatePartSelection true (some sel)).partSel =
      if sel = [] then none else some sel := by
  unfold ENode.updatePartSelection
  rw [hsel]
  simp only [if_true, hcur, or_true, if_true]
  by_cases hS : sel = []
  · simp [hS, gUtilEqualsSets, hcur]
  · have hlen : sel.length > 0 := List.length_pos.mpr hS
    simp [hlen, hS, gUtilEqualsSets, ENode.updatePartSelectionRaw, ENode.requestInvalidation]

/-- The code's merge (via `_indexOfPartId`) is the spec-worded merge
(keep current ids not in the incoming set, append incoming ids not
currently selected). -/
theorem jsMerge_eq_specMerge (cur sel : List Nat) :
    jsMerge cur sel =
      cur.filter (fun x => decide (x ∉ sel)) ++ sel.filter (fun x => decide (x ∉ cur)) := by
  unfold jsMerge
  congr 1 <;> apply List.filter_congr <;> intro x hx <;> simp [jsIndexOfPartId_neg]

/-- A selected editor node with no part selection. -/
def wNodeSel : ENode :=
  { flags := 1, staged := none, partSel := none, invLog := [], applied := [] }

/-- A selected editor node with part selection [1, 2, 3]. -/
def wNodeSel3 : ENode :=
  { flags := 1, staged := none, partSel := some [1, 2, 3], invLog := [], applied := [] }

/-- Claim C5: on a Selected editor, toggling the same id list twice
restores the original part selection as a set of ids; in toggle mode
with a nonempty current selection the new selection keeps every current
id not in the incoming list, then appends every incoming id not current,
collapsing an empty result to none; and the spec scenario — select,
overwrite with [1,2], then toggle [2,3] — yields selection [1,3]. -/
theorem updatePartSelection_spec :
    (∀ (n : ENode) (S : List Nat) (x : Nat), n.hasFlag Flag.Selected = true →
      (x ∈ ((n.updatePartSelection true (some S)).updatePartSelection true
          (some S)).partSel.getD []
        ↔ x ∈ n.partSel.getD [])) ∧
    (∀ (n : ENode) (S cur : List Nat),
      n.hasFlag Flag.Selected = true → n.partSel = some cur → cur ≠ [] →
      (n.updatePartSelection true (some S)).partSel =
        if cur.filter (fun x => decide (x ∉ S)) ++ S.filter (fun x => decide (x ∉ cur)) = []
        then none
        else some (cur.filter (fun x => decide (x ∉ S)) ++
          S.filter (fun x => decide (x ∉ cur)))) ∧
    ((wNodeSel.updatePartSelection false (some [1, 2])).updatePartSelection true
        (some [2, 3])).partSel = some [1, 3] := by
  refine ⟨?_, ?_, by decide⟩
  · intro n S x hsel
    have hsel1 : (n.updatePartSelection true (some S)).hasFlag Flag.Selected = true := by
      unfold ENode.hasFlag
      rw [updatePartSelection_flags]
      exact hsel
    cases hcur : n.partSel with
    | none =>
      have h1 := updPS_toggle_none n S hsel hcur
      by_cases hS : S = []
      · have h2 := updPS_toggle_none _ S hsel1 (by rw [h1, if_pos hS])
        rw [h2, if_pos hS]
      · have h2 := updPS_toggle_some _ S S hsel1 (by rw [h1, if_neg hS])
        have hSS : jsMerge S S = [] := by
          rw [List.eq_nil_iff_forall_not_mem]
          intro y hy
          rw [mem_jsMerge] at hy
          tauto
        rw [h2, hSS, if_pos rfl]
    | some cur =>
      have h1 := updPS_toggle_some n S cur hsel hcur
      by_cases hM : jsMerge cur S = []
      · have hIncl : ∀ y, ¬((y ∈ cur ∧ y ∉ S) ∨ (y ∈ S ∧ y ∉ cur)) := by
          intro y hy
          rw [← mem_jsMerge cur S y, hM] at hy
          simp at hy
        have h2 := updPS_toggle_none _ S hsel1 (by rw [h1, if_pos hM])
        rw [h2]
        by_cases hS : S = []
        · rw [if_pos hS]
          simp only [Option.getD_none, Option.getD_some, List.not_mem_nil, false_iff]
          intro hxc
          exact hIncl x (Or.inl ⟨hxc, by rw [hS]; exact List.not_mem_nil x⟩)
        · rw [if_neg hS]
          simp only [Option.getD_some]
          constructor
          · intro hxS
            by_contra hxc
            exact hIncl x (Or.inr ⟨hxS, hxc⟩)
          · intro hxc
            by_contra hxS
            exact hIncl x (Or.inl ⟨hxc, hxS⟩)
      · have h2 := updPS_toggle_some _ S (jsMerge cur S) hsel1 (by rw [h1, if_neg hM])
        rw [h2]
        have hmm : ∀ y, y ∈ jsMerge (jsMerge cur S) S ↔ y ∈ cur := by
          intro y
          rw [mem_jsMerge]
          simp only [mem_jsMerge]
          tauto
        by_cases hM2 : jsMerge (jsMerge cur S) S = []
        · rw [if_pos hM2]
          simp only [Option.getD_none, Option.getD_some, List.not_mem_nil, false_iff]
          intro hxc
          have hx2 := (hmm x).mpr hxc
          rw [hM2] at hx2
          exact List.not_mem_nil x hx2
        · rw [if_neg hM2]
          simp only [Option.getD_some]
          exact hmm x
  · intro n S cur hsel hcur hne
    rw [updPS_toggle_some n S cur hsel hcur, jsMerge_eq_specMerge]

/-- Witness for C5 at concrete inputs: double-toggling [2] on selection
[1,2,3] keeps the membership of every id (here: 3), and toggling [2,3]
on current [1,2,3] matches the merge formula. -/
theorem updatePartSelection_spec_witness :
    (wNodeSel3.hasFlag Flag.Selected = true ∧
      (3 ∈ ((wNodeSel3.updatePartSelection true (some [2])).updatePartSelection true
          (some [2])).partSel.getD []
        ↔ 3 ∈ wNodeSel3.partSel.getD [])) ∧
    (wNodeSel3.partSel = some [1, 2, 3] ∧ ([1, 2, 3] : List Nat) ≠ [] ∧
      (wNodeSel3.updatePartSelection true (some [2, 3])).partSel =
        if ([1, 2, 3] : List Nat).filter (fun x => decide (x ∉ ([2, 3] : List Nat))) ++
            ([2, 3] : List Nat).filter (fun x => decide (x ∉ ([1, 2, 3] : List Nat))) = []
        then none
        else some (([1, 2, 3] : List Nat).filter (fun x => decide (x ∉ ([2, 3] : List Nat))) ++
          ([2, 3] : List Nat).filter (fun x => decide (x ∉ ([1, 2, 3] : List Nat))))) :=
  ⟨⟨by decide, updatePartSelection_spec.1 wNodeSel3 [2] 3 (by decide)⟩,
    ⟨rfl, by decide,
      updatePartSelection_spec.2.1 wNodeSel3 [2, 3] [1, 2, 3] (by decide) rfl (by decide)⟩⟩

/-- `sibsAfter` past a prefix that does not contain the element. -/
theorem sibsAfter_append (c : Nat) (l1 l2 : List Nat) (h : c ∉ l1) :
    sibsAfter c (l1 ++ c :: l2) = l2 := by
  induction l1 with
  | nil => simp [sibsAfter]
  | cons a as ih =>
    have ha : a ≠ c := fun hc => h (by simp [hc])
    have has : c ∉ as := fun hc => h (by simp [hc])
    simp [sibsAfter, ha, ih has]

/-- A failed sibling scan means no later sibling has an editor. -/
theorem firstEditor_none_iff (s : EditorState) (l : List Nat) :
    firstEditor s l = none ↔ ∀ x ∈ l, s.slot x = none := by
  induction l with
  | nil => simp [firstEditor]
  | cons a as ih =>
    cases ha : s.slot a with
    | some ed => simp [firstEditor, ha]
    | none => simp [firstEditor, ha, ih]

/-- A successful sibling scan finds the first later sibling with an
editor. -/
theorem firstEditor_some (s : EditorState) (l : List Nat) (r : Nat)
    (h : firstEditor s l = some r) :
    ∃ m1 x m2, l = m1 ++ x :: m2 ∧ (∀ y ∈ m1, s.slot y = none) ∧ s.slot x = some r := by
  induction l with
  | nil => simp [firstEditor] at h
  | cons a as ih =>
    cases ha : s.slot a with
    | some ed =>
      rw [firstEditor, ha] at h
      cases h
      exact ⟨[], a, as, by simp, by simp, ha⟩
    | none =>
      rw [firstEditor, ha] at h
      obtain ⟨m1, x, m2, hsplit, hnone, hx⟩ := ih h
      exact ⟨a :: m1, x, m2, by simp [hsplit], by
        intro y hy
        rcases List.mem_cons.mp hy with rfl | hy2
        · exact ha
        · exact hnone y hy2, hx⟩

/-- The invariant maintained while opening editors on the children of a
parent `P` whose editor is `pEd`: the parent editor's child list is
exactly the children's editors in document order, and child editor ids
are fresh-bounded, distinct from `pEd` and injective. -/
structure SibInv (P pEd : Nat) (cs : List Nat) (s : EditorState) : Prop where
  slotP : s.slot P = some pEd
  pEdLt : pEd < s.nextId
  children : (s.eds pEd).getD [] = cs.filterMap s.slot
  slotLt : ∀ c ∈ cs, ∀ k, s.slot c = some k → k < s.nextId
  slotNe : ∀ c ∈ cs, ∀ k, s.slot c = some k → k ≠ pEd
  slotInj : ∀ c ∈ cs, ∀ d ∈ cs, ∀ k, s.slot c = some k → s.slot d = some k → c = d

/-- Unfolding of `openEditorF` at positive fuel. -/
theorem openEditorF_succ (sc : Scene) (f : Nat) (s : EditorState) (e : Nat) :
    openEditorF sc (f + 1) s e =
      (if e ∈ sc.attached then
        match s.slot e with
        | some ed => .ok (some ed, s)
        | none =>
          if sc.registered e then
            match parentLoopF sc f (createFresh s e) e s.nextId (sc.parent e) with
            | .error m => .error m
            | .ok s2 => .ok (some s.nextId, { s2 with slot := upd s2.slot e (some s.nextId) })
          else .ok (none, s)
      else .error "Node is not attached to create an editor for.") := by
  simp only [openEditorF]

/-- Unfolding of `parentLoopF` at positive fuel. -/
theorem parentLoopF_succ (sc : Scene) (f : Nat) (s : EditorState) (elem ed : Nat)
    (pn? : Option Nat) :
    parentLoopF sc (f + 1) s elem ed pn? =
      (match pn? with
      | none => .ok s
      | some pn =>
        match s.slot pn with
        | some pEd => insertEditor s pEd ed (findRefEditor sc s elem)
        | none =>
          match openEditorF sc f s pn with
          | .error m => .error m
          | .ok (some pEd, s2) => insertEditor s2 pEd ed (findRefEditor sc s2 elem)
          | .ok (none, s2) => parentLoopF sc f s2 elem ed (sc.parent pn)) := by
  simp only [parentLoopF]

/-- The sibling scan only depends on the attachment slots. -/
theorem firstEditor_congr (s t : EditorState) (h : s.slot = t.slot) :
    ∀ l, firstEditor s l = firstEditor t l
  | [] => rfl
  | x :: xs => by rw [firstEditor, firstEditor, h, firstEditor_congr s t h xs]

/-- Re-establishing `SibInv` after a child open inserted the fresh
editor `s.nextId` for child `c` at its document-order position. -/
theorem SibInv_insert_general (P pEd : Nat) (cs l1 l2 : List Nat) (c : Nat) (s : EditorState)
    (inv : SibInv P pEd cs s) (hsplit : cs = l1 ++ c :: l2) (hPnot : P ∉ cs)
    (hcl1 : c ∉ l1) (hcl2 : c ∉ l2) (hslot : s.slot c = none)
    (l2' : List Nat)
    (hform : l2' = l1.filterMap s.slot ++ s.nextId :: l2.filterMap s.slot)
    (s2 : EditorState)
    (hs2slot : s2.slot = upd s.slot c (some s.nextId))
    (hs2eds : s2.eds pEd = some l2')
    (hs2next : s2.nextId = s.nextId + 1) :
    SibInv P pEd cs s2 := by
  have hcmem : c ∈ cs := by rw [hsplit]; exact List.mem_append_right l1 (List.mem_cons_self c l2)
  have hPc : P ≠ c := fun h => hPnot (h ▸ hcmem)
  have h1 : l1.filterMap (upd s.slot c (some s.nextId)) = l1.filterMap s.slot :=
    List.filterMap_congr (fun x hx => upd_ne _ _ _ _ (fun he => hcl1 (he ▸ hx)))
  have h2 : l2.filterMap (upd s.slot c (some s.nextId)) = l2.filterMap s.slot :=
    List.filterMap_congr (fun x hx => upd_ne _ _ _ _ (fun he => hcl2 (he ▸ hx)))
  constructor
  · rw [hs2slot, upd_ne _ _ _ _ hPc]
    exact inv.slotP
  · rw [hs2next]
    exact Nat.lt_succ_of_lt inv.pEdLt
  · rw [hs2eds, Option.getD_some, hform, hs2slot, hsplit, List.filterMap_append, h1]
    congr 1
    simp [List.filterMap_cons, upd_same, h2]
  · intro d hd k hk
    rw [hs2slot] at hk
    rw [hs2next]
    by_cases hdc : d = c
    · subst hdc
      rw [upd_same] at hk
      cases hk
      exact Nat.lt_succ_self _
    · rw [upd_ne _ _ _ _ hdc] at hk
      exact Nat.lt_succ_of_lt (inv.slotLt d hd k hk)
  · intro d hd k hk
    rw [hs2slot] at hk
    by_cases hdc : d = c
    · subst hdc
      rw [upd_same] at hk
      cases hk
      exact fun he => absurd (he ▸ inv.pEdLt) (lt_irrefl _)
    · rw [upd_ne _ _ _ _ hdc] at hk
      exact inv.slotNe d hd k hk
  · intro d hd e2 he2 k hk1 hk2
    rw [hs2slot] at hk1 hk2
    by_cases hdc : d = c <;> by_cases hec : e2 = c
    · rw [hdc, hec]
    · subst hdc
      rw [upd_same] at hk1
      cases hk1
      rw [upd_ne _ _ _ _ hec] at hk2
      exact absurd (inv.slotLt e2 he2 _ hk2) (lt_irrefl _)
    · subst hec
      rw [upd_same] at hk2
      cases hk2
      rw [upd_ne _ _ _ _ hdc] at hk1
      exact absurd (inv.slotLt d hd _ hk1) (lt_irrefl _)
    · rw [upd_ne _ _ _ _ hdc] at hk1
      rw [upd_ne _ _ _ _ hec] at hk2
      exact inv.slotInj d hd e2 he2 k hk1 hk2

/-- Opening one child `c` of `P` (whose editor `pEd` is open) succeeds
with fuel 2 and re-establishes the document-order invariant: the new
editor is inserted before the editor of the first later sibling that has
one, or appended when no later sibling has one. -/
theorem open_child_step (sc : Scene) (P pEd : Nat) (cs : List Nat) (f : Nat)
    (hcs : sc.childrenOf P = cs) (hnd : cs.Nodup)
    (hpar : ∀ c ∈ cs, sc.parent c = some P) (hPnot : P ∉ cs)
    (c : Nat) (hc : c ∈ cs) (hatt : c ∈ sc.attached) (hreg : sc.registered c = true)
    (s : EditorState) (inv : SibInv P pEd cs s) :
    ∃ r s2, openEditorF sc (f + 2) s c = .ok (some r, s2) ∧ SibInv P pEd cs s2 ∧
      (∀ d, d ≠ c → s2.slot d = s.slot d) ∧ (s2.slot c).isSome = true := by
  cases hslot : s.slot c with
  | some k =>
    exact ⟨k, s, openEditor_idempotent sc (f + 1) s c k hatt hslot, inv, fun d _ => rfl,
      by rw [hslot]; rfl⟩
  | none =>
    obtain ⟨l1, l2, hsplit⟩ := List.append_of_mem hc
    have hcl : c ∉ l1 ∧ c ∉ l2 := by
      have h2 := hsplit ▸ hnd
      have h3 := (List.nodup_cons.mp (List.nodup_middle.mp h2)).1
      simp only [List.mem_append] at h3
      exact ⟨fun h => h3 (Or.inl h), fun h => h3 (Or.inr h)⟩
    have hdisj : l1.Disjoint (c :: l2) := (List.nodup_append.mp (hsplit ▸ hnd)).2.2
    have hpc := hpar c hc
    have hopen1 : openEditorF sc (f + 2) s c =
        (match parentLoopF sc (f + 1) (createFresh s c) c s.nextId (sc.parent c) with
        | .error m => .error m
        | .ok t => .ok (some s.nextId, { t with slot := upd t.slot c (some s.nextId) })) := by
      rw [show f + 2 = (f + 1) + 1 from rfl, openEditorF_succ, if_pos hatt]
      simp only [hslot, hreg, if_true]
    have hs1P : (createFresh s c).slot P = some pEd := inv.slotP
    have hloop : parentLoopF sc (f + 1) (createFresh s c) c s.nextId (sc.parent c) =
        insertEditor (createFresh s c) pEd s.nextId
          (findRefEditor sc (createFresh s c) c) := by
      rw [hpc, parentLoopF_succ]
      simp only [hs1P]
    have hrefEq : findRefEditor sc (createFresh s c) c = firstEditor s l2 := by
      rw [findRefEditor, hpc]
      dsimp only
      rw [hcs, hsplit, sibsAfter_append c l1 l2 hcl.1,
        firstEditor_congr (createFresh s c) s rfl]
    have hedsP : (createFresh s c).eds pEd = s.eds pEd :=
      upd_ne _ _ _ _ (Nat.ne_of_lt inv.pEdLt)
    have hpe : ¬ (createFresh s c).parentEd s.nextId ≠ none := by
      rw [createFresh]
      simp [upd_same]
    have hA1 : l1.filterMap (fun y => s.slot y) = l1.filterMap s.slot := rfl
    cases hfe : firstEditor s l2 with
    | none =>
      have hB : l2.filterMap s.slot = [] := by
        rw [List.filterMap_eq_nil]
        exact (firstEditor_none_iff s l2).mp hfe
      have hLA : cs.filterMap s.slot = l1.filterMap s.slot := by
        rw [hsplit, List.filterMap_append]
        simp [List.filterMap_cons, hslot, hB]
      have hins : insertEditor (createFresh s c) pEd s.nextId none =
          .ok { (createFresh s c) with
            eds := upd (createFresh s c).eds pEd
              (some (((createFresh s c).eds pEd).getD [] ++ [s.nextId])),
            parentEd := upd (createFresh s c).parentEd s.nextId (some pEd) } := by
        simp only [insertEditor, insertAt, hpe, if_false, ge_iff_le, le_refl, if_true]
      refine ⟨s.nextId,
        { nextId := (createFresh s c).nextId,
          slot := upd (createFresh s c).slot c (some s.nextId),
          elemOf := (createFresh s c).elemOf,
          eds := upd (createFresh s c).eds pEd
            (some (((createFresh s c).eds pEd).getD [] ++ [s.nextId])),
          parentEd := upd (createFresh s c).parentEd s.nextId (some pEd) }, ?_, ?_, ?_, ?_⟩
      · rw [hopen1, hloop, hrefEq, hfe, hins]
      · refine SibInv_insert_general P pEd cs l1 l2 c s inv hsplit hPnot hcl.1 hcl.2 hslot
          (l1.filterMap s.slot ++ s.nextId :: l2.filterMap s.slot) rfl _ rfl ?_ rfl
        show upd (createFresh s c).eds pEd
            (some (((createFresh s c).eds pEd).getD [] ++ [s.nextId])) pEd = _
        rw [upd_same, hedsP, inv.children, hLA, hB]
      · intro d hd
        exact upd_ne _ _ _ _ hd
      · show (upd (createFresh s c).slot c (some s.nextId) c).isSome = true
        rw [upd_same]
        rfl
    | some rEd =>
      obtain ⟨m1, x, m2, hl2split, hm1none, hx⟩ := firstEditor_some s l2 rEd hfe
      have hxl2 : x ∈ l2 := by rw [hl2split]; simp
      have hxcs : x ∈ cs := by
        rw [hsplit]
        exact List.mem_append_right l1 (List.mem_cons_of_mem c hxl2)
      have hrEdmem : rEd ∈ cs.filterMap s.slot := List.mem_filterMap.mpr ⟨x, hxcs, hx⟩
      have hC : l2.filterMap s.slot = rEd :: m2.filterMap s.slot := by
        rw [hl2split, List.filterMap_append,
          show m1.filterMap s.slot = [] from List.filterMap_eq_nil.mpr hm1none]
        simp [List.filterMap_cons, hx]
      have hLsplit : cs.filterMap s.slot =
          l1.filterMap s.slot ++ rEd :: m2.filterMap s.slot := by
        rw [hsplit, List.filterMap_append]
        congr 1
        simp [List.filterMap_cons, hslot, hC]
      have hrEdnotA : rEd ∉ l1.filterMap s.slot := by
        intro hmem
        obtain ⟨y, hy, hyslot⟩ := List.mem_filterMap.mp hmem
        have hycs : y ∈ cs := by rw [hsplit]; exact List.mem_append_left _ hy
        have hyx : y = x := inv.slotInj y hycs x hxcs rEd hyslot hx
        exact hdisj hy (by rw [hyx]; exact List.mem_cons_of_mem c hxl2)
      obtain ⟨L0, hL0, hL0eq⟩ : ∃ L0, s.eds pEd = some L0 ∧ L0 = cs.filterMap s.slot := by
        cases he : s.eds pEd with
        | none =>
          exfalso
          have hch := inv.children
          rw [he] at hch
          simp only [Option.getD_none] at hch
          rw [← hch] at hrEdmem
          exact List.not_mem_nil rEd hrEdmem
        | some L0 =>
          refine ⟨L0, rfl, ?_⟩
          have hch := inv.children
          rwa [he, Option.getD_some] at hch
      have hrEdinL0 : rEd ∈ L0 := by rw [hL0eq]; exact hrEdmem
      have hidx : L0.indexOf rEd = (l1.filterMap s.slot).length := by
        rw [hL0eq, hLsplit]
        exact indexOf_first_occurrence rEd _ _ hrEdnotA
      have hnotge : ¬ (l1.filterMap s.slot).length ≥ L0.length := by
        rw [hL0eq, hLsplit]
        simp
      have htake : L0.take (l1.filterMap s.slot).length = l1.filterMap s.slot := by
        rw [hL0eq, hLsplit]
        exact List.take_left' rfl
      have hdrop : L0.drop (l1.filterMap s.slot).length = rEd :: m2.filterMap s.slot := by
        rw [hL0eq, hLsplit]
        exact List.drop_left' rfl
      have hins : insertEditor (createFresh s c) pEd s.nextId (some rEd) =
          .ok { (createFresh s c) with
            eds := upd (createFresh s c).eds pEd
              (some (l1.filterMap s.slot ++ s.nextId :: rEd :: m2.filterMap s.slot)),
            parentEd := upd (createFresh s c).parentEd s.nextId (some pEd) } := by
        simp only [insertEditor, hedsP, hL0]
        rw [if_pos hrEdinL0, hidx]
        simp only [insertAt, hpe, if_false]
        rw [hedsP, hL0]
        simp only [Option.getD_some]
        rw [if_neg hnotge, htake, hdrop]
      refine ⟨s.nextId,
        { nextId := (createFresh s c).nextId,
          slot := upd (createFresh s c).slot c (some s.nextId),
          elemOf := (createFresh s c).elemOf,
          eds := upd (createFresh s c).eds pEd
            (some (l1.filterMap s.slot ++ s.nextId :: rEd :: m2.filterMap s.slot)),
          parentEd := upd (createFresh s c).parentEd s.nextId (some pEd) }, ?_, ?_, ?_, ?_⟩
      · rw [hopen1, hloop, hrefEq, hfe, hins]
      · refine SibInv_insert_general P pEd cs l1 l2 c s inv hsplit hPnot hcl.1 hcl.2 hslot
          (l1.filterMap s.slot ++ s.nextId :: l2.filterMap s.slot) rfl _ rfl ?_ rfl
        show upd (createFresh s c).eds pEd
            (some (l1.filterMap s.slot ++ s.nextId :: rEd :: m2.filterMap s.slot)) pEd = _
        rw [upd_same, hC]
      · intro d hd
        exact upd_ne _ _ _ _ hd
      · show (upd (createFresh s c).slot c (some s.nextId) c).isSome = true
        rw [upd_same]
        rfl

/-- Running any sequence of child opens preserves the document-order
invariant, never fails, and opens exactly the children in the sequence. -/
theorem runOpens_sibling_inv (sc : Scene) (P pEd : Nat) (cs : List Nat) (f : Nat)
    (hcs : sc.childrenOf P = cs) (hnd : cs.Nodup)
    (hpar : ∀ c ∈ cs, sc.parent c = some P) (hPnot : P ∉ cs)
    (hatt : ∀ c ∈ cs, c ∈ sc.attached) (hreg : ∀ c ∈ cs, sc.registered c = true) :
    ∀ (ops : List Nat), (∀ o ∈ ops, o ∈ cs) → ∀ s, SibInv P pEd cs s →
      ∃ s2, runOpens sc (f + 2) ops s = .ok s2 ∧ SibInv P pEd cs s2 ∧
        (∀ c, (s2.slot c).isSome = true ↔ ((s.slot c).isSome = true ∨ c ∈ ops)) := by
  intro ops
  induction ops with
  | nil =>
    intro _ s inv
    exact ⟨s, rfl, inv, fun c => by simp⟩
  | cons o os ih =>
    intro hops s inv
    obtain ⟨r, s1, hstep, inv1, hframe, hsome⟩ :=
      open_child_step sc P pEd cs f hcs hnd hpar hPnot o (hops o (by simp)) (hatt o (hops o (by simp)))
        (hreg o (hops o (by simp))) s inv
    obtain ⟨s2, hrun, inv2, hiff⟩ := ih (fun x hx => hops x (by simp [hx])) s1 inv1
    refine ⟨s2, ?_, inv2, ?_⟩
    · simp only [runOpens, hstep]
      exact hrun
    · intro c
      rw [hiff c]
      by_cases hco : c = o
      · subst hco
        simp [hsome]
      · rw [hframe c hco]
        simp [List.mem_cons, hco]

/-- Claim C1: for every parent with an open editor and every set of its
children with registered editor kinds, after any sequence of `open`
calls on those children (in any order, repeats allowed) the parent
editor's child list is exactly the editors of the opened children in the
children's relative document order (each open inserted before the editor
of the first later sibling that had one, appending otherwise). -/
theorem openEditor_sibling_order (sc : Scene) (P pEd : Nat) (cs : List Nat) (f : Nat)
    (hcs : sc.childrenOf P = cs) (hnd : cs.Nodup)
    (hpar : ∀ c ∈ cs, sc.parent c = some P) (hPnot : P ∉ cs)
    (hatt : ∀ c ∈ cs, c ∈ sc.attached) (hreg : ∀ c ∈ cs, sc.registered c = true)
    (ops : List Nat) (hops : ∀ o ∈ ops, o ∈ cs)
    (s0 : EditorState) (hP : s0.slot P = some pEd) (hpEd : pEd < s0.nextId)
    (hempty : ∀ c ∈ cs, s0.slot c = none) (heds : (s0.eds pEd).getD [] = []) :
    ∃ s2, runOpens sc (f + 2) ops s0 = .ok s2 ∧
      (s2.eds pEd).getD [] = cs.filterMap s2.slot ∧
      (∀ c ∈ cs, ((s2.slot c).isSome = true ↔ c ∈ ops)) := by
  have inv0 : SibInv P pEd cs s0 := by
    constructor
    · exact hP
    · exact hpEd
    · rw [heds]
      symm
      rw [List.filterMap_eq_nil]
      exact hempty
    · intro c hc k hk
      rw [hempty c hc] at hk
      cases hk
    · intro c hc k hk
      rw [hempty c hc] at hk
      cases hk
    · intro c hc d hd k hk1 _
      rw [hempty c hc] at hk1
      cases hk1
  obtain ⟨s2, hrun, inv2, hiff⟩ :=
    runOpens_sibling_inv sc P pEd cs f hcs hnd hpar hPnot hatt hreg ops hops s0 inv0
  refine ⟨s2, hrun, inv2.children, fun c hc => ?_⟩
  rw [hiff c, hempty c hc]
  simp

/-- The spec scenario scene: root element 10 with children [1, 2]
(document order: 1 = A, then 2 = B). -/
def wSceneC1 : Scene :=
  { parent := fun x => if x = 1 ∨ x = 2 then some 10 else none
    childrenOf := fun x => if x = 10 then [1, 2] else []
    attached := [1, 2, 10]
    registered := fun _ => true }

/-- Initial state for the scenario: the root editor 0 is open on
element 10 and no child has an editor. -/
def ws0C1 : EditorState :=
  { nextId := 1
    slot := fun x => if x = 10 then some 0 else none
    elemOf := fun _ => 10
    eds := fun _ => none
    parentEd := fun _ => none }

/-- Witness for C1: open B (element 2) before A (element 1); the root
editor's children end up in document order. -/
theorem openEditor_sibling_order_witness :
    (∀ c ∈ ([1, 2] : List Nat), wSceneC1.parent c = some 10) ∧
    ws0C1.slot 10 = some 0 ∧ ([1, 2] : List Nat).Nodup ∧
    (∃ s2, runOpens wSceneC1 2 [2, 1] ws0C1 = .ok s2 ∧
      (s2.eds 0).getD [] = ([1, 2] : List Nat).filterMap s2.slot ∧
      (∀ c ∈ ([1, 2] : List Nat), ((s2.slot c).isSome = true ↔ c ∈ ([2, 1] : List Nat)))) ∧
    (∃ s2, runOpens wSceneC1 2 [2, 1] ws0C1 = .ok s2 ∧
      (s2.eds 0).getD [] = [2, 1] ∧ s2.slot 1 = some 2 ∧ s2.slot 2 = some 1) :=
  ⟨by decide, rfl, by decide,
    openEditor_sibling_order wSceneC1 10 0 [1, 2] 0 rfl (by decide) (by decide) (by decide)
      (by decide) (fun c hc => rfl) [2, 1] (by decide) ws0C1 rfl (by decide)
      (by decide) rfl,
    ⟨_, rfl, by
      simp [runOpens, openEditorF, parentLoopF, insertEditor, insertAt, findRefEditor,
        firstEditor, sibsAfter, createFresh, upd, wSceneC1, ws0C1]⟩⟩

/-
Well-formedness of the editor state, used to settle `close(open(E))`.
-/

/-- Well-formedness: all editor ids stored anywhere are below the
allocator; unallocated ids carry the prototype defaults; the
parent/child links are mutually coherent; child lists have no
duplicates. -/
structure WF (s : EditorState) : Prop where
  slotLt : ∀ x k, s.slot x = some k → k < s.nextId
  memLt : ∀ p k, k ∈ (s.eds p).getD [] → k < s.nextId
  parentLt : ∀ k p, s.parentEd k = some p → p < s.nextId
  freshEds : ∀ k, s.nextId ≤ k → s.eds k = none
  freshParent : ∀ k, s.nextId ≤ k → s.parentEd k = none
  parentChild : ∀ k p, s.parentEd k = some p → k ∈ (s.eds p).getD []
  childParent : ∀ p k, k ∈ (s.eds p).getD [] → s.parentEd k = some p
  nodupEds : ∀ p, ((s.eds p).getD []).Nodup

/-- `createEditor` (a fresh allocation) preserves well-formedness. -/
theorem WF_createFresh (s : EditorState) (e : Nat) (wf : WF s) : WF (createFresh s e) := by
  have hedsEq : ∀ q, (createFresh s e).eds q = (if q = s.nextId then none else s.eds q) := by
    intro q
    by_cases hq : q = s.nextId
    · subst hq
      simp [createFresh, upd_same]
    · simp [createFresh, upd_ne _ _ _ _ hq, hq]
  have hpeEq : ∀ q, (createFresh s e).parentEd q = (if q = s.nextId then none else s.parentEd q) := by
    intro q
    by_cases hq : q = s.nextId
    · subst hq
      simp [createFresh, upd_same]
    · simp [createFresh, upd_ne _ _ _ _ hq, hq]
  have hmem : ∀ q k, k ∈ ((createFresh s e).eds q).getD [] → k ∈ (s.eds q).getD [] := by
    intro q k hk
    rw [hedsEq] at hk
    by_cases hq : q = s.nextId
    · rw [if_pos hq] at hk
      simp at hk
    · rwa [if_neg hq] at hk
  constructor
  · intro x k hk
    exact Nat.lt_succ_of_lt (wf.slotLt x k hk)
  · intro p k hk
    exact Nat.lt_succ_of_lt (wf.memLt p k (hmem p k hk))
  · intro k p hk
    rw [hpeEq] at hk
    by_cases hq : k = s.nextId
    · rw [if_pos hq] at hk
      cases hk
    · rw [if_neg hq] at hk
      exact Nat.lt_succ_of_lt (wf.parentLt k p hk)
  · intro k hk
    have hk2 : s.nextId + 1 ≤ k := hk
    rw [hedsEq]
    by_cases hq : k = s.nextId
    · rw [if_pos hq]
    · rw [if_neg hq]
      exact wf.freshEds k (by omega)
  · intro k hk
    have hk2 : s.nextId + 1 ≤ k := hk
    rw [hpeEq]
    by_cases hq : k = s.nextId
    · rw [if_pos hq]
    · rw [if_neg hq]
      exact wf.freshParent k (by omega)
  · intro k p hk
    rw [hpeEq] at hk
    by_cases hq : k = s.nextId
    · rw [if_pos hq] at hk
      cases hk
    · rw [if_neg hq] at hk
      have hx := wf.parentChild k p hk
      rw [hedsEq]
      by_cases hp : p = s.nextId
      · subst hp
        have := wf.parentLt k _ hk
        omega
      · rwa [if_neg hp]
  · intro p k hk
    have hk2 := hmem p k hk
    have := wf.childParent p k hk2
    rw [hpeEq]
    rw [if_neg (by
      intro hq
      subst hq
      exact absurd (wf.memLt p _ hk2) (lt_irrefl _))]
    exact this
  · intro p
    rw [hedsEq]
    by_cases hp : p = s.nextId
    · rw [if_pos hp]
      simp
    · rw [if_neg hp]
      exact wf.nodupEds p

/-- `insertAt` under a cleared parent back-reference. -/
theorem insertAt_ok (t : EditorState) (p c idx : Nat) (hpc : ¬ t.parentEd c ≠ none) :
    insertAt t p c idx = .ok { t with
      eds := upd t.eds p (some (if idx ≥ ((t.eds p).getD []).length
        then (t.eds p).getD [] ++ [c]
        else ((t.eds p).getD []).take idx ++ c :: ((t.eds p).getD []).drop idx)),
      parentEd := upd t.parentEd c (some p) } := by
  simp only [insertAt, hpc, if_false]

/-- Both the push and the splice of the JS array insertion are
permutations of consing the new element. -/
theorem jsInsert_perm (L : List Nat) (idx c : Nat) :
    (if idx ≥ L.length then L ++ [c] else L.take idx ++ c :: L.drop idx).Perm (c :: L) := by
  split
  · have h1 := @List.perm_middle Nat c L []
    rw [List.append_nil] at h1
    exact h1
  · have h1 := @List.perm_middle Nat c (L.take idx) (L.drop idx)
    rw [List.take_append_drop] at h1
    exact h1

/-- A successful `insertEditor` preserves well-formedness and changes
exactly the parent's child list (by a cons-permutation) and the child's
back-reference. -/
theorem insertEditor_wf (t : EditorState) (p c : Nat) (ref : Option Nat) (t2 : EditorState)
    (wf : WF t) (hpc : t.parentEd c = none) (hc : c < t.nextId) (hp : p < t.nextId)
    (hins : insertEditor t p c ref = .ok t2) :
    WF t2 ∧ t2.slot = t.slot ∧ t2.nextId = t.nextId ∧
      (∀ q, q ≠ p → t2.eds q = t.eds q) ∧
      (∀ k, k ≠ c → t2.parentEd k = t.parentEd k) ∧
      t2.parentEd c = some p ∧
      (∃ l2, t2.eds p = some l2 ∧ l2.Perm (c :: (t.eds p).getD [])) := by
  have hpc2 : ¬ t.parentEd c ≠ none := fun h => h hpc
  obtain ⟨M, hMperm, ht2⟩ : ∃ M, M.Perm (c :: (t.eds p).getD []) ∧
      t2 = { t with eds := upd t.eds p (some M), parentEd := upd t.parentEd c (some p) } := by
    cases ref with
    | none =>
      rw [insertEditor, insertAt_ok t p c _ hpc2] at hins
      cases hins
      exact ⟨_, jsInsert_perm _ _ _, rfl⟩
    | some r =>
      rw [insertEditor] at hins
      cases heds : t.eds p with
      | none =>
        rw [heds] at hins
        cases hins
      | some l =>
        rw [heds] at hins
        dsimp only at hins
        by_cases hr : r ∈ l
        · rw [if_pos hr, insertAt_ok t p c _ hpc2] at hins
          rw [heds] at hins
          cases hins
          exact ⟨_, jsInsert_perm _ _ _, rfl⟩
        · rw [if_neg hr] at hins
          cases hins
  subst ht2
  have hcnotL : c ∉ (t.eds p).getD [] := fun hmem =>
    absurd (wf.childParent p c hmem) (by rw [hpc]; exact fun h => Option.noConfusion h)
  have hmemM : ∀ k, k ∈ M ↔ (k = c ∨ k ∈ (t.eds p).getD []) := by
    intro k
    rw [hMperm.mem_iff, List.mem_cons]
  refine ⟨?_, rfl, rfl, fun q hq => upd_ne _ _ _ _ hq, fun k hk => upd_ne _ _ _ _ hk,
    upd_same _ _ _, ⟨M, upd_same _ _ _, hMperm⟩⟩
  constructor
  all_goals dsimp only
  · exact wf.slotLt
  · intro q k hk
    by_cases hq : q = p
    · subst hq
      rw [upd_same, Option.getD_some] at hk
      rcases (hmemM k).mp hk with rfl | hk2
      · exact hc
      · exact wf.memLt q k hk2
    · rw [upd_ne _ _ _ _ hq] at hk
      exact wf.memLt q k hk
  · intro k q hk
    by_cases hkc : k = c
    · subst hkc
      rw [upd_same] at hk
      cases hk
      exact hp
    · rw [upd_ne _ _ _ _ hkc] at hk
      exact wf.parentLt k q hk
  · intro k hk
    rw [upd_ne _ _ _ _ (by omega : k ≠ p)]
    exact wf.freshEds k hk
  · intro k hk
    rw [upd_ne _ _ _ _ (by omega : k ≠ c)]
    exact wf.freshParent k hk
  · intro k q hk
    by_cases hkc : k = c
    · subst hkc
      rw [upd_same] at hk
      cases hk
      rw [upd_same, Option.getD_some]
      exact (hmemM _).mpr (Or.inl rfl)
    · rw [upd_ne _ _ _ _ hkc] at hk
      have hmem := wf.parentChild k q hk
      by_cases hq : q = p
      · subst hq
        rw [upd_same, Option.getD_some]
        exact (hmemM k).mpr (Or.inr hmem)
      · rw [upd_ne _ _ _ _ hq]
        exact hmem
  · intro q k hk
    by_cases hq : q = p
    · subst hq
      rw [upd_same, Option.getD_some] at hk
      rcases (hmemM k).mp hk with rfl | hk2
      · rw [upd_same]
      · have hkc : k ≠ c := fun he => hcnotL (he ▸ hk2)
        rw [upd_ne _ _ _ _ hkc]
        exact wf.childParent _ k hk2
    · rw [upd_ne _ _ _ _ hq] at hk
      have := wf.childParent q k hk
      have hkc : k ≠ c := by
        intro he
        subst he
        rw [hpc] at this
        cases this
      rw [upd_ne _ _ _ _ hkc]
      exact this
  · intro q
    by_cases hq : q = p
    · subst hq
      rw [upd_same, Option.getD_some]
      exact hMperm.symm.nodup (List.nodup_cons.mpr ⟨hcnotL, wf.nodupEds q⟩)
    · rw [upd_ne _ _ _ _ hq]
      exact wf.nodupEds q

/-- What a successful `openEditor` run guarantees relative to its start
state: the allocator only grows, existing slots persist, new slots carry
fresh ids, and the child lists / back-references of editors that existed
but were in no slot are untouched. -/
def OpenPost (s s2 : EditorState) : Prop :=
  s.nextId ≤ s2.nextId ∧
  (∀ x k, s.slot x = some k → s2.slot x = some k) ∧
  (∀ x k, s2.slot x = some k → s.slot x = some k ∨ s.nextId ≤ k) ∧
  (∀ k, k < s.nextId → (∀ x, s.slot x ≠ some k) → s2.eds k = s.eds k) ∧
  (∀ k, k < s.nextId → s2.parentEd k = s.parentEd k)

/-- Same, for the parent loop inserting the already-created editor `c`
(whose back-reference the loop may set). -/
def LoopPost (c : Nat) (s s2 : EditorState) : Prop :=
  s.nextId ≤ s2.nextId ∧
  (∀ x k, s.slot x = some k → s2.slot x = some k) ∧
  (∀ x k, s2.slot x = some k → s.slot x = some k ∨ s.nextId ≤ k) ∧
  (∀ k, k < s.nextId → (∀ x, s.slot x ≠ some k) → s2.eds k = s.eds k) ∧
  (∀ k, k < s.nextId → k ≠ c → s2.parentEd k = s.parentEd k)

/-- Setting an attachment slot to a live editor id preserves
well-formedness. -/
theorem WF_setSlot (t : EditorState) (e ed : Nat) (wf : WF t) (hed : ed < t.nextId) :
    WF { t with slot := upd t.slot e (some ed) } := by
  constructor
  all_goals dsimp only
  · intro x k hk
    by_cases hx : x = e
    · subst hx
      rw [upd_same] at hk
      cases hk
      exact hed
    · rw [upd_ne _ _ _ _ hx] at hk
      exact wf.slotLt x k hk
  · exact wf.memLt
  · exact wf.parentLt
  · exact wf.freshEds
  · exact wf.freshParent
  · exact wf.parentChild
  · exact wf.childParent
  · exact wf.nodupEds

/-- The central preservation lemma, by induction on fuel: a successful
`openEditorF` keeps the state well-formed and satisfies the open frame
conditions (and the returned editor sits in the opened element's slot);
a successful `parentLoopF` run for a freshly-created editor `c` does the
same with the loop frame conditions. -/
theorem openLoop_frames : ∀ f : Nat,
    (∀ (sc : Scene) (s : EditorState) (e : Nat) (r : Option Nat) (s2 : EditorState),
      WF s → openEditorF sc f s e = .ok (r, s2) →
      WF s2 ∧ OpenPost s s2 ∧ (∀ ed, r = some ed → s2.slot e = some ed)) ∧
    (∀ (sc : Scene) (s : EditorState) (elem c : Nat) (pn? : Option Nat) (s2 : EditorState),
      WF s → c < s.nextId → s.parentEd c = none → (∀ x, s.slot x ≠ some c) →
      parentLoopF sc f s elem c pn? = .ok s2 →
      WF s2 ∧ LoopPost c s s2) := by
  intro f
  induction f with
  | zero =>
    constructor
    · intro sc s e r s2 _ h
      simp only [openEditorF] at h
      exact Except.noConfusion h
    · intro sc s elem c pn? s2 _ _ _ _ h
      simp only [parentLoopF] at h
      exact Except.noConfusion h
  | succ f ih =>
    constructor
    · intro sc s e r s2 wf h
      rw [openEditorF_succ] at h
      by_cases hatt : e ∈ sc.attached
      · rw [if_pos hatt] at h
        cases hslot : s.slot e with
        | some ed =>
          rw [hslot] at h
          cases h
          exact ⟨wf, ⟨le_refl _, fun x k hk => hk, fun x k hk => Or.inl hk,
            fun k _ _ => rfl, fun k _ => rfl⟩,
            fun ed2 he => by cases he; exact hslot⟩
        | none =>
          rw [hslot] at h
          by_cases hreg : sc.registered e = true
          · rw [if_pos hreg] at h
            cases hloop : parentLoopF sc f (createFresh s e) e s.nextId (sc.parent e) with
            | error m =>
              rw [hloop] at h
              cases h
            | ok t =>
              rw [hloop] at h
              cases h
              have wfc := WF_createFresh s e wf
              have hlt : s.nextId < (createFresh s e).nextId := Nat.lt_succ_self _
              have hpn : (createFresh s e).parentEd s.nextId = none := upd_same _ _ _
              have hsl : ∀ x, (createFresh s e).slot x ≠ some s.nextId := by
                intro x hx
                exact absurd (wf.slotLt x _ hx) (lt_irrefl _)
              obtain ⟨wft, hn, hm, hf2, hedf, hpf⟩ :=
                ih.2 sc (createFresh s e) e s.nextId (sc.parent e) t wfc hlt hpn hsl hloop
              have hcf : (createFresh s e).nextId = s.nextId + 1 := rfl
              have hnn : s.nextId < t.nextId := by omega
              refine ⟨WF_setSlot t e s.nextId wft hnn, ⟨?_, ?_, ?_, ?_, ?_⟩,
                fun ed2 he => by cases he; exact upd_same _ _ _⟩
              · show s.nextId ≤ t.nextId
                omega
              · intro x k hk
                show upd t.slot e (some s.nextId) x = some k
                have hx : x ≠ e := fun he => by rw [he, hslot] at hk; cases hk
                rw [upd_ne _ _ _ _ hx]
                exact hm x k hk
              · intro x k hk
                replace hk : upd t.slot e (some s.nextId) x = some k := hk
                by_cases hx : x = e
                · subst hx
                  rw [upd_same] at hk
                  cases hk
                  exact Or.inr (le_refl _)
                · rw [upd_ne _ _ _ _ hx] at hk
                  rcases hf2 x k hk with hold | hge
                  · exact Or.inl hold
                  · exact Or.inr (by omega)
              · intro k hklt hknox
                show t.eds k = s.eds k
                have hk2 : k < (createFresh s e).nextId := by omega
                have hknox2 : ∀ x, (createFresh s e).slot x ≠ some k := hknox
                rw [hedf k hk2 hknox2]
                show upd s.eds s.nextId none k = s.eds k
                exact upd_ne _ _ _ _ (by omega)
              · intro k hklt
                show t.parentEd k = s.parentEd k
                rw [hpf k (by omega) (by omega)]
                show upd s.parentEd s.nextId none k = s.parentEd k
                exact upd_ne _ _ _ _ (by omega)
          · rw [if_neg hreg] at h
            cases h
            exact ⟨wf, ⟨le_refl _, fun x k hk => hk, fun x k hk => Or.inl hk,
              fun k _ _ => rfl, fun k _ => rfl⟩,
              fun ed2 he => by cases he⟩
      · rw [if_neg hatt] at h
        cases h
    · intro sc s elem c pn? s2 wf hc hpc hsl h
      rw [parentLoopF_succ] at h
      cases pn? with
      | none =>
        cases h
        exact ⟨wf, le_refl _, fun x k hk => hk, fun x k hk => Or.inl hk,
          fun k _ _ => rfl, fun k _ _ => rfl⟩
      | some pn =>
        dsimp only at h
        cases hslot : s.slot pn with
        | some pEd =>
          rw [hslot] at h
          dsimp only at h
          have hp : pEd < s.nextId := wf.slotLt pn pEd hslot
          obtain ⟨wf2, hslot2, hnext2, hedsf, hpef, hpec, _⟩ :=
            insertEditor_wf s pEd c _ s2 wf hpc hc hp h
          refine ⟨wf2, ?_, ?_, ?_, ?_, ?_⟩
          · rw [hnext2]
          · intro x k hk
            rw [hslot2]
            exact hk
          · intro x k hk
            rw [hslot2] at hk
            exact Or.inl hk
          · intro k hklt hknox
            have hkp : k ≠ pEd := fun he => hknox pn (by rw [hslot, he])
            exact hedsf k hkp
          · intro k _ hkc
            exact hpef k hkc
        | none =>
          rw [hslot] at h
          dsimp only at h
          cases hrec : openEditorF sc f s pn with
          | error m =>
            rw [hrec] at h
            cases h
          | ok pr =>
            obtain ⟨res, t⟩ := pr
            rw [hrec] at h
            obtain ⟨wft, ⟨hn, hm, hf2, hedf, hpf⟩, hself⟩ := ih.1 sc s pn res t wf hrec
            have hct : c < t.nextId := lt_of_lt_of_le hc hn
            have hpct : t.parentEd c = none := by rw [hpf c hc]; exact hpc
            have hslt : ∀ x, t.slot x ≠ some c := by
              intro x hx
              rcases hf2 x c hx with hold | hge
              · exact hsl x hold
              · omega
            cases res with
            | some pEd =>
              dsimp only at h
              have hpEdslot : t.slot pn = some pEd := hself pEd rfl
              have hpEdlt : pEd < t.nextId := wft.slotLt pn pEd hpEdslot
              have hpEdge : s.nextId ≤ pEd := by
                rcases hf2 pn pEd hpEdslot with hcase | hge
                · rw [hslot] at hcase
                  cases hcase
                · exact hge
              obtain ⟨wf2, hslot2, hnext2, hedsf, hpef, hpec, _⟩ :=
                insertEditor_wf t pEd c _ s2 wft hpct hct hpEdlt h
              refine ⟨wf2, ?_, ?_, ?_, ?_, ?_⟩
              · rw [hnext2]
                exact hn
              · intro x k hk
                rw [hslot2]
                exact hm x k hk
              · intro x k hk
                rw [hslot2] at hk
                exact hf2 x k hk
              · intro k hklt hknox
                have hkp : k ≠ pEd := by omega
                rw [hedsf k hkp]
                exact hedf k hklt hknox
              · intro k hklt hkc
                rw [hpef k hkc]
                exact hpf k hklt
            | none =>
              dsimp only at h
              obtain ⟨wf2, hn2, hm2, hf22, hedf2, hpf2⟩ :=
                (ih.2 sc t elem c (sc.parent pn) s2 wft hct hpct hslt h)
              refine ⟨wf2, ?_, ?_, ?_, ?_, ?_⟩
              · omega
              · intro x k hk
                exact hm2 x k (hm x k hk)
              · intro x k hk
                rcases hf22 x k hk with hmid | hge
                · rcases hf2 x k hmid with hold | hge2
                  · exact Or.inl hold
                  · exact Or.inr hge2
                · exact Or.inr (by omega)
              · intro k hklt hknox
                have hknox2 : ∀ x, t.slot x ≠ some k := by
                  intro x hx
                  rcases hf2 x k hx with hold | hge
                  · exact hknox x hold
                  · omega
                rw [hedf2 k (by omega) hknox2]
                exact hedf k hklt hknox
              · intro k hklt hkc
                rw [hpf2 k (by omega) hkc]
                exact hpf k hklt

/-- Unfolding of `closeEditorF` at positive fuel. -/
theorem closeEditorF_succ (sc : Scene) (f : Nat) (s : EditorState) (e : Nat) :
    closeEditorF sc (f + 1) s e =
      (match s.slot e with
      | none => .ok s
      | some ed =>
        if sc.registered e then
          match
            ((match s.eds ed with
              | none => .ok s
              | some _ => closeChildrenF sc f ed 0 s) : Except String EditorState) with
          | .error m => .error m
          | .ok s1 =>
            match
              ((match s1.parentEd ed with
                | none => .ok s1
                | some pEd => removeEditor s1 pEd ed) : Except String EditorState) with
            | .error m => .error m
            | .ok s2 => .ok { s2 with slot := upd s2.slot e none }
        else .ok s) := by
  simp only [closeEditorF]

/-- Claim C3: for an attached element `E` of registered kind with no
editor yet, `close(open(E))` leaves `E`'s attachment slot empty, the
editor created by the open is no editor's child and no editor's
`parentEditor` back-reference afterwards, and its own back-reference is
cleared.  (The opened editor has no children, so the close's child loop
is not entered.) -/
theorem close_open_clean (sc : Scene) (f : Nat) (s0 : EditorState) (E ed : Nat)
    (s1 : EditorState) (wf : WF s0) (hE : s0.slot E = none)
    (hopen : openEditorF sc (f + 1) s0 E = .ok (some ed, s1)) :
    ed = s0.nextId ∧ s1.slot E = some ed ∧ s1.eds ed = none ∧
    ∃ s2, closeEditorF sc 1 s1 E = .ok s2 ∧
      s2.slot E = none ∧ (∀ q, ed ∉ (s2.eds q).getD []) ∧
      (∀ k, s2.parentEd k ≠ some ed) ∧ s2.parentEd ed = none := by
  rw [openEditorF_succ] at hopen
  by_cases hatt : E ∈ sc.attached
  case neg =>
    rw [if_neg hatt] at hopen
    exact Except.noConfusion hopen
  rw [if_pos hatt, hE] at hopen
  by_cases hreg : sc.registered E = true
  case neg =>
    rw [if_neg hreg] at hopen
    cases hopen
  rw [if_pos hreg] at hopen
  cases hloop : parentLoopF sc f (createFresh s0 E) E s0.nextId (sc.parent E) with
  | error m =>
    rw [hloop] at hopen
    exact Except.noConfusion hopen
  | ok t =>
    rw [hloop] at hopen
    cases hopen
    have wfc := WF_createFresh s0 E wf
    have hlt : s0.nextId < (createFresh s0 E).nextId := Nat.lt_succ_self _
    have hpn : (createFresh s0 E).parentEd s0.nextId = none := upd_same _ _ _
    have hsl : ∀ x, (createFresh s0 E).slot x ≠ some s0.nextId := by
      intro x hx
      exact absurd (wf.slotLt x _ hx) (lt_irrefl _)
    obtain ⟨wft, hn, hm, hf2, hedf, hpf⟩ :=
      (openLoop_frames f).2 sc (createFresh s0 E) E s0.nextId (sc.parent E) t wfc hlt hpn hsl
        hloop
    have hcf : (createFresh s0 E).nextId = s0.nextId + 1 := rfl
    have hnn : s0.nextId < t.nextId := by omega
    have hedt : t.eds s0.nextId = none := by
      rw [hedf s0.nextId hlt hsl]
      exact upd_same _ _ _
    have wfs1 : WF ({ t with slot := upd t.slot E (some s0.nextId) } : EditorState) :=
      WF_setSlot t E s0.nextId wft hnn
    have hslotE : upd t.slot E (some s0.nextId) E = some s0.nextId := upd_same _ _ _
    refine ⟨rfl, hslotE, hedt, ?_⟩
    cases hpe : t.parentEd s0.nextId with
    | none =>
      have hclose : closeEditorF sc 1 ({ t with slot := upd t.slot E (some s0.nextId) }) E =
          .ok { t with slot := upd (upd t.slot E (some s0.nextId)) E none } := by
        rw [show (1 : Nat) = 0 + 1 from rfl, closeEditorF_succ]
        dsimp only
        rw [hslotE]
        dsimp only
        rw [if_pos hreg, hedt]
        dsimp only
        rw [hpe]
      refine ⟨_, hclose, ?_, ?_, ?_, ?_⟩
      · exact upd_same _ _ _
      · intro q hq
        have := wfs1.childParent q s0.nextId hq
        dsimp only at this
        rw [hpe] at this
        cases this
      · intro k hk
        dsimp only at hk
        have := wfs1.parentChild k s0.nextId hk
        dsimp only at this
        rw [hedt] at this
        simp at this
      · exact hpe
    | some pEd =>
      have hmem : s0.nextId ∈ (t.eds pEd).getD [] := by
        have := wfs1.parentChild s0.nextId pEd hpe
        exact this
      obtain ⟨lp, hlp⟩ : ∃ lp, t.eds pEd = some lp := by
        cases hq : t.eds pEd with
        | none =>
          rw [hq] at hmem
          simp at hmem
        | some lp => exact ⟨lp, rfl⟩
      have hmem2 : s0.nextId ∈ lp := by
        rw [hlp, Option.getD_some] at hmem
        exact hmem
      have hrem : removeEditor ({ t with slot := upd t.slot E (some s0.nextId) }) pEd
            s0.nextId =
          .ok { t with
                slot := upd t.slot E (some s0.nextId)
                eds := upd t.eds pEd (some (lp.erase s0.nextId))
                parentEd := upd t.parentEd s0.nextId none } := by
        simp only [removeEditor, hlp]
        rw [if_pos hmem2]
      have hclose : closeEditorF sc 1 ({ t with slot := upd t.slot E (some s0.nextId) }) E =
          .ok { t with
                slot := upd (upd t.slot E (some s0.nextId)) E none
                eds := upd t.eds pEd (some (lp.erase s0.nextId))
                parentEd := upd t.parentEd s0.nextId none } := by
        rw [show (1 : Nat) = 0 + 1 from rfl, closeEditorF_succ]
        dsimp only
        rw [hslotE]
        dsimp only
        rw [if_pos hreg, hedt]
        dsimp only
        rw [hpe]
        dsimp only
        rw [hrem]
      refine ⟨_, hclose, ?_, ?_, ?_, ?_⟩
      · exact upd_same _ _ _
      · intro q hq
        dsimp only at hq
        by_cases hqp : q = pEd
        · subst hqp
          rw [upd_same, Option.getD_some] at hq
          have hnd : lp.Nodup := by
            have := wfs1.nodupEds q
            dsimp only at this
            rwa [hlp, Option.getD_some] at this
          exact hnd.not_mem_erase hq
        · rw [upd_ne _ _ _ _ hqp] at hq
          have := wfs1.childParent q s0.nextId hq
          dsimp only at this
          rw [hpe] at this
          cases this
          exact hqp rfl
      · intro k hk
        dsimp only at hk
        by_cases hke : k = s0.nextId
        · subst hke
          rw [upd_same] at hk
          cases hk
        · rw [upd_ne _ _ _ _ hke] at hk
          have := wfs1.parentChild k s0.nextId hk
          dsimp only at this
          rw [hedt] at this
          simp at this
      · exact upd_same _ _ _

/-- The empty editor state: nothing allocated, nothing attached. -/
def wsEmpty : EditorState :=
  { nextId := 0
    slot := fun _ => none
    elemOf := fun _ => 0
    eds := fun _ => none
    parentEd := fun _ => none }

/-- The empty editor state is well-formed. -/
theorem WF_wsEmpty : WF wsEmpty := by
  refine ⟨?_, ?_, ?_, ?_, ?_, ?_, ?_, ?_⟩
  · intro x k h
    exact Option.noConfusion h
  · intro p k h
    simp [wsEmpty] at h
  · intro k p h
    exact Option.noConfusion h
  · intro k _
    rfl
  · intro k _
    rfl
  · intro k p h
    exact Option.noConfusion h
  · intro p k h
    simp [wsEmpty] at h
  · intro p
    simp [wsEmpty]

/-- A one-element scene for the close-after-open witness. -/
def wSceneC3 : Scene :=
  { parent := fun _ => none
    childrenOf := fun _ => []
    attached := [7]
    registered := fun _ => true }

/-- Witness for C3 at a concrete input: open element 7 in the empty
state, then close it. -/
theorem close_open_clean_witness :
    wsEmpty.slot 7 = none ∧
    (∃ ed s1 s2, openEditorF wSceneC3 2 wsEmpty 7 = .ok (some ed, s1) ∧
      ed = wsEmpty.nextId ∧ s1.slot 7 = some ed ∧ s1.eds ed = none ∧
      closeEditorF wSceneC3 1 s1 7 = .ok s2 ∧
      s2.slot 7 = none ∧ ed ∉ (s2.eds 5).getD [] ∧ s2.parentEd 9 ≠ some ed ∧
      s2.parentEd ed = none) := by
  refine ⟨rfl, ?_⟩
  obtain ⟨s1, hopen⟩ : ∃ s1, openEditorF wSceneC3 2 wsEmpty 7 = .ok (some 0, s1) := ⟨_, rfl⟩
  obtain ⟨hed, hs1, heds, s2, hclose, h1, h2, h3, h4⟩ :=
    close_open_clean wSceneC3 1 wsEmpty 7 0 s1 WF_wsEmpty rfl hopen
  exact ⟨0, s1, s2, hopen, hed, hs1, heds, hclose, h1, h2 5, h3 9, h4⟩
